import Mathlib

/-!
Shallow embedding of the contact-identity reconciliation service
(`src/services/identify.service.ts`, `src/utils/normalization.ts` and the
Prisma `Contact` schema) together with proofs about its specification.

The persistent store is modelled as an explicit state: a list of contact
rows in insertion (id) order, the next auto-increment id, and a logical
clock supplying `createdAt` / `updatedAt` values.  Database queries with
`orderBy: { createdAt: "asc" }` are modelled as a deterministic sort on
the key `(createdAt, id)`: rows with equal `createdAt` come back in id
(insertion) order.  The composite unique constraint
`@@unique([email, phoneNumber])` follows the Postgres semantics declared
in `prisma/schema.prisma`: it ranges over every row of the table
(soft-deleted rows included) and a row with a NULL in either column never
conflicts.
-/

/-- Decidable equality for `Except`, so that concrete runs of the model can
be checked by `decide`. -/
instance {ε α} [DecidableEq ε] [DecidableEq α] : DecidableEq (Except ε α)
  | .ok a, .ok b => if h : a = b then .isTrue (by rw [h]) else .isFalse (by simp [h])
  | .error a, .error b => if h : a = b then .isTrue (by rw [h]) else .isFalse (by simp [h])
  | .ok _, .error _ => .isFalse (by simp)
  | .error _, .ok _ => .isFalse (by simp)

namespace IdentifySvc

/-- The `LinkPrecedence` enum of the Prisma schema. -/
inductive Precedence where
  | primary
  | secondary
deriving DecidableEq, Repr

/-- One row of the `Contact` table, mirroring the Prisma model. -/
structure Contact where
  id : Nat
  email : Option String
  phoneNumber : Option String
  linkedId : Option Nat
  linkPrecedence : Precedence
  createdAt : Nat
  updatedAt : Nat
  deletedAt : Option Nat
deriving DecidableEq, Repr

/-- The database state: rows in insertion order, auto-increment counter,
logical clock. -/
structure Store where
  contacts : List Contact
  nextId : Nat
  now : Nat
deriving DecidableEq, Repr

/-- The value object returned by `processContact` / `buildResponse`. -/
structure ContactResponse where
  primaryContactId : Nat
  emails : List String
  phoneNumbers : List String
  secondaryContactIds : List Nat
deriving DecidableEq, Repr

/-! ## Normalization (`src/utils/normalization.ts`)

JavaScript values reaching the normalizers are modelled by `JSVal`:
strings, numbers, `null` and `undefined`. -/

/-- A JavaScript value as it can reach `normalizeEmail` / `normalizePhone`. -/
inductive JSVal where
  | vstr (s : String)
  | vnum (n : Nat)
  | vnull
  | vundef
deriving DecidableEq, Repr

/-- JavaScript `toString()` on a `JSVal`. -/
def JSVal.toStr : JSVal → String
  | .vstr s => s
  | .vnum n => toString n
  | .vnull => "null"
  | .vundef => "undefined"

/-- Whether the value is a JavaScript string. -/
def JSVal.isStr : JSVal → Bool
  | .vstr _ => true
  | _ => false

/-- Whether the value is `null` or `undefined` (JavaScript `v == null`). -/
def JSVal.isNullish : JSVal → Bool
  | .vnull => true
  | .vundef => true
  | _ => false

/-- Whether a character is whitespace for the purposes of JavaScript
`String.prototype.trim`. -/
def isJsSpace (c : Char) : Bool :=
  c = ' ' || c = '\t' || c = '\n' || c = '\r'

/-- JavaScript `trim()`: drop leading and trailing whitespace. -/
def trimStr (s : String) : String :=
  String.mk (((s.data.dropWhile isJsSpace).reverse.dropWhile isJsSpace).reverse)

/-- JavaScript `toLowerCase()` (character-wise lowering). -/
def toLowerStr (s : String) : String :=
  String.mk (s.data.map Char.toLower)

/-- `normalizeEmail`: non-strings are treated as absent; strings are trimmed
and lower-cased; an empty result is absent. -/
def normalizeEmail (v : JSVal) : Option String :=
  match v with
  | .vstr s =>
    let trimmed := toLowerStr (trimStr s)
    if trimmed = "" then none else some trimmed
  | _ => none

/-- Strip every non-digit character from a string (JavaScript `replace(/\D/g, "")`). -/
def stripNonDigits (s : String) : String :=
  String.mk (s.data.filter Char.isDigit)

/-- `normalizePhone`: `null`/`undefined` are absent; any other value is
converted to a string via `toString()` and stripped to its digits; an empty
result is absent. -/
def normalizePhone (v : JSVal) : Option String :=
  if v.isNullish then none
  else
    let digits := stripNonDigits v.toStr
    if digits = "" then none else some digits

/-- Lift the `string | null` arguments of `processContact` into `JSVal`. -/
def jsOfOpt : Option String → JSVal
  | some s => .vstr s
  | none => .vnull

/-! ## Deterministic model of `orderBy: { createdAt: "asc" }` -/

/-- Comparison key used to model the database ordering: `createdAt`
ascending, ties broken by `id` ascending (insertion order). -/
def byCreatedAt (a b : Contact) : Bool :=
  decide (a.createdAt < b.createdAt) ||
    (decide (a.createdAt = b.createdAt) && decide (a.id ≤ b.id))

/-- Insert one row into a list sorted by `byCreatedAt`. -/
def insertByCreatedAt (c : Contact) : List Contact → List Contact
  | [] => [c]
  | d :: ds => if byCreatedAt c d then c :: d :: ds else d :: insertByCreatedAt c ds

/-- Sort rows by `(createdAt, id)`, modelling `orderBy: { createdAt: "asc" }`. -/
def orderByCreatedAt : List Contact → List Contact
  | [] => []
  | c :: cs => insertByCreatedAt c (orderByCreatedAt cs)

/-! ## JavaScript `Set` dedup and response assembly -/

/-- First-occurrence deduplication, the iteration order of a JavaScript
`Set` built from a list (`Array.from(new Set(l))`). -/
def jsSetDedup {α} [DecidableEq α] (l : List α) : List α :=
  l.foldl (fun acc x => if x ∈ acc then acc else acc ++ [x]) []

/-- `buildResponse` from `identify.service.ts`: locate the primary in the
chain, collect deduplicated emails and phone numbers (primary's values
first, empties dropped), and list the secondary ids.  Returns `none` when
the primary id is not in the chain (the TypeScript code would crash on the
non-null assertion). -/
def buildResponse (primaryId : Nat) (chain : List Contact) : Option ContactResponse :=
  match chain.find? (fun c => c.id == primaryId) with
  | none => none
  | some prim =>
    let secondaries := chain.filter (fun c => c.id != primaryId)
    some
      { primaryContactId := primaryId
        emails :=
          jsSetDedup (((prim.email :: secondaries.map Contact.email).filterMap id).filter
            (fun e => e != ""))
        phoneNumbers :=
          jsSetDedup (((prim.phoneNumber :: secondaries.map Contact.phoneNumber).filterMap id).filter
            (fun p => p != ""))
        secondaryContactIds := secondaries.map Contact.id }

/-! ## Store queries and updates -/

/-- Predicate of the matcher query: the row's email equals the supplied
email or its phone equals the supplied phone (only supplied predicates
participate). -/
def matchesEither (email phone : Option String) (c : Contact) : Bool :=
  (email.isSome && c.email == email) || (phone.isSome && c.phoneNumber == phone)

/-- Step 1 of the transaction: all non-deleted rows matching either
identifier. -/
def findMatches (s : Store) (email phone : Option String) : List Contact :=
  s.contacts.filter (fun c => c.deletedAt.isNone && matchesEither email phone c)

/-- Candidate primary id of a matched row: its `linkedId` when the row is a
secondary with a truthy `linkedId`, otherwise its own id. -/
def candidatePrimaryId (m : Contact) : Nat :=
  match m.linkPrecedence, m.linkedId with
  | .secondary, some j => if j = 0 then m.id else j
  | _, _ => m.id

/-- Step 4 fetch: rows whose id is among the deduplicated candidate primary
ids.  Note: this query carries no `deletedAt` filter, exactly like the
source. -/
def fetchCandidates (s : Store) (found : List Contact) : List Contact :=
  s.contacts.filter (fun c => decide (c.id ∈ jsSetDedup (found.map candidatePrimaryId)))

/-- Step 5a: bulk re-parent of every row whose `linkedId` is a demoted
primary id (no `deletedAt` filter, like the source). -/
def reparentContacts (contacts : List Contact) (otherIds : List Nat) (newPrimaryId now : Nat) :
    List Contact :=
  contacts.map fun c =>
    match c.linkedId with
    | some j => if j ∈ otherIds then { c with linkedId := some newPrimaryId, updatedAt := now } else c
    | none => c

/-- Step 5b: bulk demotion of the superseded primaries (no `deletedAt`
filter, like the source). -/
def demoteContacts (contacts : List Contact) (otherIds : List Nat) (newPrimaryId now : Nat) :
    List Contact :=
  contacts.map fun c =>
    if c.id ∈ otherIds then
      { c with linkPrecedence := .secondary, linkedId := some newPrimaryId, updatedAt := now }
    else c

/-- Step 5: apply re-parent then demotion, guarded by
`if (otherPrimaries.length)` as in the source. -/
def mergeStores (s : Store) (primaryId : Nat) (otherIds : List Nat) : Store :=
  if otherIds.isEmpty then s
  else
    { s with
      contacts :=
        demoteContacts (reparentContacts s.contacts otherIds primaryId s.now) otherIds primaryId
          (s.now + 1)
      now := s.now + 2 }

/-- Whether the row's `linkedId` is one of the given root ids. -/
def linkedToAny (rootIds : List Nat) (c : Contact) : Bool :=
  match c.linkedId with
  | some j => decide (j ∈ rootIds)
  | none => false

/-- Step 6: the consolidated cluster — non-deleted rows whose id or
`linkedId` is among the root ids. -/
def fetchCluster (s : Store) (rootIds : List Nat) : List Contact :=
  s.contacts.filter (fun c => c.deletedAt.isNone && (decide (c.id ∈ rootIds) || linkedToAny rootIds c))

/-- Errors a transaction attempt can surface. -/
inductive TxErr where
  | uniqueViolation
  | runtimeFailure
deriving DecidableEq, Repr

/-- `tx.contact.create`: fails with a unique violation when the new row has
both fields non-null and some existing row (soft-deleted rows included,
per the table-wide Postgres constraint) carries the identical pair;
otherwise appends the row with the next id and current clock. -/
def createContact (s : Store) (email phone : Option String) (prec : Precedence)
    (linkedId : Option Nat) : Except TxErr (Contact × Store) :=
  if email.isSome && phone.isSome &&
      s.contacts.any (fun c => c.email == email && c.phoneNumber == phone) then
    .error .uniqueViolation
  else
    let c : Contact :=
      { id := s.nextId, email := email, phoneNumber := phone, linkedId := linkedId
        linkPrecedence := prec, createdAt := s.now, updatedAt := s.now, deletedAt := none }
    .ok (c, { contacts := s.contacts ++ [c], nextId := s.nextId + 1, now := s.now + 1 })

/-- Create a secondary row, push it onto the in-memory cluster view and
build the response (the shared tail of steps 7/NEW in the source). -/
def finishCreate (s1 : Store) (primaryId : Nat) (cluster : List Contact)
    (email phone : Option String) : Except TxErr (ContactResponse × Store) :=
  match createContact s1 email phone .secondary (some primaryId) with
  | .error er => .error er
  | .ok (sec, s2) =>
    match buildResponse primaryId (cluster ++ [sec]) with
    | some r => .ok (r, s2)
    | none => .error .runtimeFailure

/-- Build the response without creating a row. -/
def finishNoCreate (s1 : Store) (primaryId : Nat) (cluster : List Contact) :
    Except TxErr (ContactResponse × Store) :=
  match buildResponse primaryId cluster with
  | some r => .ok (r, s1)
  | none => .error .runtimeFailure

/-- The matched path of the transaction (steps 5–8 of the source), given
the ordered candidate primaries. -/
def matchedPath (s : Store) (email phone : Option String) (primary : Contact)
    (otherPrimaries : List Contact) : Except TxErr (ContactResponse × Store) :=
  let otherIds := otherPrimaries.map Contact.id
  let s1 := mergeStores s primary.id otherIds
  let cluster := fetchCluster s1 (primary.id :: otherIds)
  match email, phone with
  | some e, none => finishCreate s1 primary.id cluster (some e) none
  | none, some p => finishCreate s1 primary.id cluster none (some p)
  | eo, po =>
    let hasEmail := eo.isSome && cluster.any (fun c => c.email == eo)
    let hasPhone := po.isSome && cluster.any (fun c => c.phoneNumber == po)
    let needEmailLink := eo.isSome && !hasEmail
    let needPhoneLink := po.isSome && !hasPhone
    if needEmailLink || needPhoneLink then
      finishCreate s1 primary.id cluster (if needEmailLink then eo else none)
        (if needPhoneLink then po else none)
    else finishNoCreate s1 primary.id cluster

/-- The unmatched path of the transaction (step 2): create a fresh primary
and return it as a singleton cluster. -/
def emptyPath (s : Store) (email phone : Option String) :
    Except TxErr (ContactResponse × Store) :=
  match createContact s email phone .primary none with
  | .error er => .error er
  | .ok (c, s1) =>
    match buildResponse c.id [c] with
    | some r => .ok (r, s1)
    | none => .error .runtimeFailure

/-- The body of the serializable transaction (steps 1–8 of
`processContact`). -/
def txBody (s : Store) (email phone : Option String) :
    Except TxErr (ContactResponse × Store) :=
  let found := findMatches s email phone
  if found.isEmpty then emptyPath s email phone
  else
    match orderByCreatedAt (fetchCandidates s found) with
    | [] => .error .runtimeFailure
    | primary :: otherPrimaries => matchedPath s email phone primary otherPrimaries

/-- The `findFirst` predicate of the conflict handler: a flat `OR` of the
full pair, the email alone, and the phone alone (only supplied conditions
participate). -/
def recoverWhere (email phone : Option String) (c : Contact) : Bool :=
  (email.isSome && phone.isSome && c.email == email && c.phoneNumber == phone) ||
    (email.isSome && c.email == email) ||
    (phone.isSome && c.phoneNumber == phone)

/-- The unique-violation handler (lines 169–189 of the service): find the
oldest non-deleted row matching the flat `OR`, resolve its true primary,
fetch that cluster and build the response.  Any failure inside (missing
row, null `linkedId`, primary not in its own cluster) yields `none`,
matching the swallowed inner `catch`. -/
def conflictRecover (s : Store) (email phone : Option String) : Option ContactResponse :=
  match orderByCreatedAt (s.contacts.filter (fun c => c.deletedAt.isNone && recoverWhere email phone c)) with
  | [] => none
  | existing :: _ =>
    let truePrimaryId? : Option Nat :=
      match existing.linkPrecedence with
      | .primary => some existing.id
      | .secondary => existing.linkedId
    match truePrimaryId? with
    | none => none
    | some tpid =>
      let cluster :=
        s.contacts.filter (fun c => c.deletedAt.isNone && (c.id == tpid || c.linkedId == some tpid))
      buildResponse tpid cluster

/-- Errors surfaced by `processContact` to its caller. -/
inductive ProcErr where
  | inputError
  | dbConflict
  | runtimeFailure
deriving DecidableEq, Repr

/-- The full `processContact`: normalize, run the transaction, and on a
unique violation fall back to the read-and-resolve path with a bounded
retry budget.  On any error the transaction is rolled back, so the store
is returned unchanged only on the recovery path. -/
def processContact (s : Store) (rawEmail rawPhone : Option String) :
    Nat → Except ProcErr (ContactResponse × Store) :=
  fun maxRetries =>
    let email := normalizeEmail (jsOfOpt rawEmail)
    let phone := normalizePhone (jsOfOpt rawPhone)
    if email.isNone && phone.isNone then .error .inputError
    else
      match txBody s email phone with
      | .ok rs => .ok rs
      | .error .uniqueViolation =>
        match maxRetries with
        | Nat.succ k =>
          match conflictRecover s email phone with
          | some r => .ok (r, s)
          | none => processContact s rawEmail rawPhone k
        | 0 => .error .dbConflict
      | .error .runtimeFailure => .error .runtimeFailure

/-! ## Well-formedness of a store

These are the data-model invariants of §3 of the specification, stated
decidably so that concrete stores can discharge them by `decide`. -/

/-- Ids are pairwise distinct. -/
def NodupIds (s : Store) : Prop := (s.contacts.map Contact.id).Nodup

instance (s : Store) : Decidable (NodupIds s) := by
  unfold NodupIds
  infer_instance

/-- The `linkedId` target of a row, when present, exists and is a primary. -/
def linkTargetOk (s : Store) (c : Contact) : Bool :=
  match c.linkedId with
  | none => true
  | some j => s.contacts.any (fun d => d.id == j && d.linkPrecedence == .primary)

/-- A store satisfying the §3 invariants relevant to the proofs. -/
structure WellFormed (s : Store) : Prop where
  nodup : NodupIds s
  pos : ∀ c ∈ s.contacts, 1 ≤ c.id
  fresh : ∀ c ∈ s.contacts, c.id < s.nextId
  links : ∀ c ∈ s.contacts, linkTargetOk s c = true
  secLinked : ∀ c ∈ s.contacts, c.linkPrecedence = .secondary → c.linkedId ≠ none

/-- The flattening invariant: no row's `linkedId` points at a row whose own
precedence is secondary. -/
def Flat (s : Store) : Prop :=
  ∀ c ∈ s.contacts, ∀ d ∈ s.contacts, ∀ j, c.linkedId = some j → d.id = j →
    d.linkPrecedence = .primary

theorem linkTarget_exists {s : Store} {c : Contact}
    (h : linkTargetOk s c = true) {j : Nat} (hj : c.linkedId = some j) :
    ∃ d, d ∈ s.contacts ∧ d.id = j ∧ d.linkPrecedence = .primary := by
  rw [linkTargetOk, hj] at h
  simp only [List.any_eq_true, Bool.and_eq_true, beq_iff_eq] at h
  obtain ⟨d, hd, hid, hp⟩ := h
  exact ⟨d, hd, hid, hp⟩

theorem id_inj {s : Store} (hw : WellFormed s) {a b : Contact}
    (ha : a ∈ s.contacts) (hb : b ∈ s.contacts) (h : a.id = b.id) : a = b :=
  List.inj_on_of_nodup_map hw.nodup ha hb h

/-! ## Lemmas about the deterministic sort -/

theorem byCreatedAt_refl (a : Contact) : byCreatedAt a a = true := by
  simp [byCreatedAt]

theorem byCreatedAt_total (a b : Contact) :
    byCreatedAt a b = true ∨ byCreatedAt b a = true := by
  simp only [byCreatedAt, Bool.or_eq_true, Bool.and_eq_true, decide_eq_true_eq]
  omega

theorem byCreatedAt_trans {a b c : Contact} (h1 : byCreatedAt a b = true)
    (h2 : byCreatedAt b c = true) : byCreatedAt a c = true := by
  simp only [byCreatedAt, Bool.or_eq_true, Bool.and_eq_true, decide_eq_true_eq] at h1 h2 ⊢
  omega

theorem insertByCreatedAt_perm (c : Contact) (l : List Contact) :
    (insertByCreatedAt c l).Perm (c :: l) := by
  induction l with
  | nil => simp [insertByCreatedAt]
  | cons d ds ih =>
    rw [insertByCreatedAt]
    split
    · exact List.Perm.refl _
    · exact (ih.cons d).trans (List.Perm.swap c d ds)

theorem orderByCreatedAt_perm (l : List Contact) : (orderByCreatedAt l).Perm l := by
  induction l with
  | nil => simp [orderByCreatedAt]
  | cons c cs ih => exact (insertByCreatedAt_perm c _).trans (ih.cons c)

theorem mem_orderByCreatedAt {x : Contact} {l : List Contact} :
    x ∈ orderByCreatedAt l ↔ x ∈ l :=
  (orderByCreatedAt_perm l).mem_iff

theorem pairwise_insertByCreatedAt {c : Contact} {l : List Contact}
    (h : l.Pairwise (fun a b => byCreatedAt a b = true)) :
    (insertByCreatedAt c l).Pairwise (fun a b => byCreatedAt a b = true) := by
  induction l with
  | nil => simp [insertByCreatedAt]
  | cons d ds ih =>
    rcases List.pairwise_cons.mp h with ⟨hd, hds⟩
    rw [insertByCreatedAt]
    split
    · rename_i hcd
      refine List.pairwise_cons.mpr ⟨?_, h⟩
      intro y hy
      rcases List.mem_cons.mp hy with rfl | hy
      · exact hcd
      · exact byCreatedAt_trans hcd (hd y hy)
    · rename_i hcd
      refine List.pairwise_cons.mpr ⟨?_, ih hds⟩
      intro y hy
      rcases List.mem_cons.mp ((insertByCreatedAt_perm c ds).mem_iff.mp hy) with rfl | hy
      · rcases byCreatedAt_total d y with h' | h'
        · exact h'
        · exact absurd h' hcd
      · exact hd y hy

theorem pairwise_orderByCreatedAt (l : List Contact) :
    (orderByCreatedAt l).Pairwise (fun a b => byCreatedAt a b = true) := by
  induction l with
  | nil => simp [orderByCreatedAt]
  | cons c cs ih => exact pairwise_insertByCreatedAt ih

theorem orderByCreatedAt_head_min {l xs : List Contact} {x : Contact}
    (h : orderByCreatedAt l = x :: xs) : ∀ y ∈ l, byCreatedAt x y = true := by
  intro y hy
  have hp := pairwise_orderByCreatedAt l
  rw [h] at hp
  have hmem : y ∈ x :: xs := by
    rw [← h]; exact mem_orderByCreatedAt.mpr hy
  rcases List.mem_cons.mp hmem with rfl | hmem
  · exact byCreatedAt_refl y
  · exact (List.pairwise_cons.mp hp).1 y hmem

/-! ## Lemmas about the JavaScript `Set` dedup -/

theorem mem_foldl_dedup {α} [DecidableEq α] (l : List α) (acc : List α) (x : α) :
    (x ∈ l.foldl (fun acc x => if x ∈ acc then acc else acc ++ [x]) acc) ↔
      x ∈ acc ∨ x ∈ l := by
  induction l generalizing acc with
  | nil => simp
  | cons y ys ih =>
    rw [List.foldl_cons, ih]
    by_cases h : y ∈ acc
    · simp only [if_pos h, List.mem_cons]
      constructor
      · rintro (hx | hx)
        · exact Or.inl hx
        · exact Or.inr (Or.inr hx)
      · rintro (hx | rfl | hx)
        · exact Or.inl hx
        · exact Or.inl h
        · exact Or.inr hx
    · simp only [if_neg h, List.mem_append, List.mem_singleton, List.mem_cons]
      tauto

theorem mem_jsSetDedup {α} [DecidableEq α] {l : List α} {x : α} :
    x ∈ jsSetDedup l ↔ x ∈ l := by
  rw [jsSetDedup, mem_foldl_dedup]
  simp

theorem nodup_foldl_dedup {α} [DecidableEq α] (l : List α) (acc : List α)
    (h : acc.Nodup) :
    (l.foldl (fun acc x => if x ∈ acc then acc else acc ++ [x]) acc).Nodup := by
  induction l generalizing acc with
  | nil => simpa
  | cons y ys ih =>
    rw [List.foldl_cons]
    by_cases hy : y ∈ acc
    · rw [if_pos hy]; exact ih acc h
    · rw [if_neg hy]
      refine ih _ ?_
      rw [List.nodup_append]
      exact ⟨h, List.nodup_singleton y, by simpa using fun hmem => hy hmem⟩

theorem nodup_jsSetDedup {α} [DecidableEq α] (l : List α) : (jsSetDedup l).Nodup :=
  nodup_foldl_dedup l [] List.nodup_nil

theorem foldl_dedup_const {α} [DecidableEq α] {l : List α} {a : α}
    (h : ∀ x ∈ l, x = a) :
    l.foldl (fun acc x => if x ∈ acc then acc else acc ++ [x]) [a] = [a] := by
  induction l with
  | nil => rfl
  | cons y ys ih =>
    have hy : y = a := h y (List.mem_cons_self _ _)
    subst hy
    rw [List.foldl_cons, if_pos (List.mem_singleton.mpr rfl)]
    exact ih fun x hx => h x (List.mem_cons_of_mem _ hx)

theorem jsSetDedup_const {α} [DecidableEq α] {l : List α} {a : α}
    (h0 : l ≠ []) (h : ∀ x ∈ l, x = a) : jsSetDedup l = [a] := by
  cases l with
  | nil => exact absurd rfl h0
  | cons y ys =>
    have hy : y = a := h y (List.mem_cons_self _ _)
    subst hy
    rw [jsSetDedup, List.foldl_cons]
    simp only [List.not_mem_nil, if_neg, List.nil_append]
    exact foldl_dedup_const fun x hx => h x (List.mem_cons_of_mem _ hx)

/-! ## Characterization of the bulk updates -/

/-- The combined effect of re-parent followed by demotion on one row. -/
def updOne (otherIds : List Nat) (newPrimaryId t1 t2 : Nat) (c : Contact) : Contact :=
  if c.id ∈ otherIds then
    { c with linkPrecedence := .secondary, linkedId := some newPrimaryId, updatedAt := t2 }
  else
    match c.linkedId with
    | some j =>
      if j ∈ otherIds then { c with linkedId := some newPrimaryId, updatedAt := t1 } else c
    | none => c

theorem demote_reparent_eq_map (l : List Contact) (otherIds : List Nat)
    (pid t1 t2 : Nat) :
    demoteContacts (reparentContacts l otherIds pid t1) otherIds pid t2 =
      l.map (updOne otherIds pid t1 t2) := by
  rw [demoteContacts, reparentContacts, List.map_map]
  refine List.map_congr_left fun c _ => ?_
  simp only [Function.comp_apply, updOne]
  by_cases hid : c.id ∈ otherIds
  · cases hl : c.linkedId with
    | none => simp [hl, hid]
    | some j =>
      by_cases hj : j ∈ otherIds
      · simp [hl, hid, hj]
      · simp [hl, hid, hj]
  · cases hl : c.linkedId with
    | none => simp [hl, hid]
    | some j =>
      by_cases hj : j ∈ otherIds
      · simp [hl, hid, hj]
      · simp [hl, hid, hj]

theorem updOne_id (otherIds : List Nat) (pid t1 t2 : Nat) (c : Contact) :
    (updOne otherIds pid t1 t2 c).id = c.id := by
  rw [updOne]
  split
  · rfl
  · split
    · split <;> rfl
    · rfl

theorem updOne_email (otherIds : List Nat) (pid t1 t2 : Nat) (c : Contact) :
    (updOne otherIds pid t1 t2 c).email = c.email := by
  rw [updOne]
  split
  · rfl
  · split
    · split <;> rfl
    · rfl

theorem updOne_phone (otherIds : List Nat) (pid t1 t2 : Nat) (c : Contact) :
    (updOne otherIds pid t1 t2 c).phoneNumber = c.phoneNumber := by
  rw [updOne]
  split
  · rfl
  · split
    · split <;> rfl
    · rfl

theorem updOne_deletedAt (otherIds : List Nat) (pid t1 t2 : Nat) (c : Contact) :
    (updOne otherIds pid t1 t2 c).deletedAt = c.deletedAt := by
  rw [updOne]
  split
  · rfl
  · split
    · split <;> rfl
    · rfl

theorem updOne_createdAt (otherIds : List Nat) (pid t1 t2 : Nat) (c : Contact) :
    (updOne otherIds pid t1 t2 c).createdAt = c.createdAt := by
  rw [updOne]
  split
  · rfl
  · split
    · split <;> rfl
    · rfl

theorem updOne_of_mem {otherIds : List Nat} {c : Contact} (h : c.id ∈ otherIds)
    (pid t1 t2 : Nat) :
    updOne otherIds pid t1 t2 c =
      { c with linkPrecedence := .secondary, linkedId := some pid, updatedAt := t2 } := by
  rw [updOne, if_pos h]

theorem updOne_precedence_of_not_mem {otherIds : List Nat} {c : Contact}
    (h : c.id ∉ otherIds) (pid t1 t2 : Nat) :
    (updOne otherIds pid t1 t2 c).linkPrecedence = c.linkPrecedence := by
  rw [updOne, if_neg h]
  cases c.linkedId with
  | none => rfl
  | some j =>
    by_cases hj : j ∈ otherIds
    · simp [hj]
    · simp [hj]

theorem updOne_linkedId_cases (otherIds : List Nat) (pid t1 t2 : Nat) (c : Contact)
    {j : Nat} (h : (updOne otherIds pid t1 t2 c).linkedId = some j) :
    j = pid ∨ (c.linkedId = some j ∧ j ∉ otherIds) := by
  rw [updOne] at h
  split at h
  · simp only [Option.some.injEq] at h
    exact Or.inl h.symm
  · split at h
    · rename_i k hk
      split at h
      · simp only [Option.some.injEq] at h
        exact Or.inl h.symm
      · rename_i hkmem
        have hkj : k = j := by
          rw [hk] at h
          exact Option.some.inj h
        exact Or.inr ⟨h, hkj ▸ hkmem⟩
    · rename_i hk
      rw [hk] at h
      cases h

theorem updOne_linkedId_of_not_mem {otherIds : List Nat} {c : Contact}
    (hid : c.id ∉ otherIds) {j : Nat} (hj : c.linkedId = some j) (hjo : j ∉ otherIds)
    (pid t1 t2 : Nat) : (updOne otherIds pid t1 t2 c).linkedId = some j := by
  rw [updOne, if_neg hid]
  simp only [hj, if_neg hjo]

theorem mergeStores_nextId (s : Store) (pid : Nat) (oids : List Nat) :
    (mergeStores s pid oids).nextId = s.nextId := by
  rw [mergeStores]
  split <;> rfl

theorem mergeStores_contacts (s : Store) (pid : Nat) (oids : List Nat) :
    (mergeStores s pid oids).contacts =
      if oids.isEmpty then s.contacts
      else s.contacts.map (updOne oids pid s.now (s.now + 1)) := by
  rw [mergeStores]
  split
  · rfl
  · exact demote_reparent_eq_map s.contacts oids pid s.now (s.now + 1)

/-! ## Query membership lemmas -/

theorem mem_findMatches {s : Store} {e p : Option String} {c : Contact} :
    c ∈ findMatches s e p ↔
      c ∈ s.contacts ∧ c.deletedAt = none ∧ matchesEither e p c = true := by
  rw [findMatches, List.mem_filter]
  simp [Option.isNone_iff_eq_none, and_assoc]

theorem mem_fetchCandidates {s : Store} {found : List Contact} {c : Contact} :
    c ∈ fetchCandidates s found ↔
      c ∈ s.contacts ∧ ∃ m ∈ found, candidatePrimaryId m = c.id := by
  rw [fetchCandidates, List.mem_filter]
  simp only [decide_eq_true_eq, mem_jsSetDedup, List.mem_map]

theorem mem_fetchCluster {s : Store} {rootIds : List Nat} {c : Contact} :
    c ∈ fetchCluster s rootIds ↔
      c ∈ s.contacts ∧ c.deletedAt = none ∧
        (c.id ∈ rootIds ∨ ∃ j, c.linkedId = some j ∧ j ∈ rootIds) := by
  rw [fetchCluster, List.mem_filter]
  simp only [Bool.and_eq_true, Bool.or_eq_true, decide_eq_true_eq,
    Option.isNone_iff_eq_none, linkedToAny, and_assoc]
  constructor
  · rintro ⟨hc, hdel, hor⟩
    refine ⟨hc, hdel, ?_⟩
    rcases hor with h | h
    · exact Or.inl h
    · revert h
      cases hl : c.linkedId with
      | none => intro h; cases h
      | some j => intro h; exact Or.inr ⟨j, rfl, of_decide_eq_true h⟩
  · rintro ⟨hc, hdel, hor⟩
    refine ⟨hc, hdel, ?_⟩
    rcases hor with h | ⟨j, hj, hjr⟩
    · exact Or.inl h
    · rw [hj]
      exact Or.inr (decide_eq_true hjr)

/-- Every candidate primary id of a matched row resolves, in a well-formed
store, to an existing row with primary precedence. -/
theorem candidate_resolves {s : Store} (hw : WellFormed s) {e p : Option String}
    {m : Contact} (hm : m ∈ findMatches s e p) :
    ∃ d, d ∈ s.contacts ∧ d.id = candidatePrimaryId m ∧ d.linkPrecedence = .primary := by
  have hms : m ∈ s.contacts := (mem_findMatches.mp hm).1
  cases hp : m.linkPrecedence with
  | primary =>
    refine ⟨m, hms, ?_, hp⟩
    rw [candidatePrimaryId, hp]
  | secondary =>
    have hl := hw.secLinked m hms hp
    cases hj : m.linkedId with
    | none => exact absurd hj hl
    | some j =>
      obtain ⟨d, hd, hdid, hdp⟩ := linkTarget_exists (hw.links m hms) hj
      have hj0 : j ≠ 0 := by
        have := hw.pos d hd
        omega
      refine ⟨d, hd, ?_, hdp⟩
      simp only [candidatePrimaryId, hp, hj, if_neg hj0]
      exact hdid

/-! ## Plumbing lemmas for the transaction body -/

theorem buildResponse_primaryContactId {pid : Nat} {chain : List Contact}
    {r : ContactResponse} (h : buildResponse pid chain = some r) :
    r.primaryContactId = pid := by
  rw [buildResponse] at h
  split at h
  · cases h
  · simp only [Option.some.injEq] at h
    rw [← h]

theorem createContact_ok {s : Store} {em ph : Option String} {prec : Precedence}
    {lid : Option Nat} {c : Contact} {s2 : Store}
    (h : createContact s em ph prec lid = .ok (c, s2)) :
    c = { id := s.nextId, email := em, phoneNumber := ph, linkedId := lid,
          linkPrecedence := prec, createdAt := s.now, updatedAt := s.now,
          deletedAt := none } ∧
      s2 = { contacts := s.contacts ++ [c], nextId := s.nextId + 1, now := s.now + 1 } := by
  rw [createContact] at h
  split at h
  · cases h
  · simp only [Except.ok.injEq, Prod.mk.injEq] at h
    obtain ⟨hc, hs⟩ := h
    exact ⟨hc.symm, by rw [← hs, hc]⟩

theorem createContact_email_only (s : Store) (e : String) (prec : Precedence)
    (lid : Option Nat) :
    createContact s (some e) none prec lid =
      .ok ({ id := s.nextId, email := some e, phoneNumber := none, linkedId := lid,
             linkPrecedence := prec, createdAt := s.now, updatedAt := s.now,
             deletedAt := none },
           { contacts := s.contacts ++
               [{ id := s.nextId, email := some e, phoneNumber := none, linkedId := lid,
                  linkPrecedence := prec, createdAt := s.now, updatedAt := s.now,
                  deletedAt := none }],
             nextId := s.nextId + 1, now := s.now + 1 }) := by
  rw [createContact]
  simp

theorem createContact_phone_only (s : Store) (p : String) (prec : Precedence)
    (lid : Option Nat) :
    createContact s none (some p) prec lid =
      .ok ({ id := s.nextId, email := none, phoneNumber := some p, linkedId := lid,
             linkPrecedence := prec, createdAt := s.now, updatedAt := s.now,
             deletedAt := none },
           { contacts := s.contacts ++
               [{ id := s.nextId, email := none, phoneNumber := some p, linkedId := lid,
                  linkPrecedence := prec, createdAt := s.now, updatedAt := s.now,
                  deletedAt := none }],
             nextId := s.nextId + 1, now := s.now + 1 }) := by
  rw [createContact]
  simp

theorem finishCreate_ok {s1 : Store} {pid : Nat} {cluster : List Contact}
    {em ph : Option String} {r : ContactResponse} {s' : Store}
    (h : finishCreate s1 pid cluster em ph = .ok (r, s')) :
    ∃ sec s2, createContact s1 em ph .secondary (some pid) = .ok (sec, s2) ∧
      buildResponse pid (cluster ++ [sec]) = some r ∧ s' = s2 := by
  rw [finishCreate] at h
  split at h
  · cases h
  · rename_i sec s2 heq
    split at h
    · rename_i r' hb
      simp only [Except.ok.injEq, Prod.mk.injEq] at h
      obtain ⟨hr, hs⟩ := h
      exact ⟨sec, s2, heq, by rw [hr] at hb; exact hb, hs.symm⟩
    · cases h

theorem finishNoCreate_ok {s1 : Store} {pid : Nat} {cluster : List Contact}
    {r : ContactResponse} {s' : Store}
    (h : finishNoCreate s1 pid cluster = .ok (r, s')) :
    buildResponse pid cluster = some r ∧ s' = s1 := by
  rw [finishNoCreate] at h
  split at h
  · rename_i r' hb
    simp only [Except.ok.injEq, Prod.mk.injEq] at h
    obtain ⟨hr, hs⟩ := h
    exact ⟨by rw [hr] at hb; exact hb, hs.symm⟩
  · cases h

theorem matchedPath_email_only (s : Store) (e : String) (T : Contact)
    (O : List Contact) :
    matchedPath s (some e) none T O =
      finishCreate (mergeStores s T.id (O.map Contact.id)) T.id
        (fetchCluster (mergeStores s T.id (O.map Contact.id)) (T.id :: O.map Contact.id))
        (some e) none := rfl

theorem matchedPath_phone_only (s : Store) (p : String) (T : Contact)
    (O : List Contact) :
    matchedPath s none (some p) T O =
      finishCreate (mergeStores s T.id (O.map Contact.id)) T.id
        (fetchCluster (mergeStores s T.id (O.map Contact.id)) (T.id :: O.map Contact.id))
        none (some p) := rfl

theorem matchedPath_both (s : Store) (e p : String) (T : Contact)
    (O : List Contact) :
    matchedPath s (some e) (some p) T O =
      (let s1 := mergeStores s T.id (O.map Contact.id)
       let cluster := fetchCluster s1 (T.id :: O.map Contact.id)
       let hasEmail := cluster.any (fun c => c.email == some e)
       let hasPhone := cluster.any (fun c => c.phoneNumber == some p)
       if !hasEmail || !hasPhone then
         finishCreate s1 T.id cluster (if !hasEmail then some e else none)
           (if !hasPhone then some p else none)
       else finishNoCreate s1 T.id cluster) := rfl

theorem txBody_empty {s : Store} {e p : Option String}
    (h : findMatches s e p = []) : txBody s e p = emptyPath s e p := by
  rw [txBody]
  simp only [h, List.isEmpty_nil, if_pos]

theorem txBody_matched {s : Store} {e p : Option String}
    (hne : findMatches s e p ≠ []) {T : Contact} {O : List Contact}
    (hsort : orderByCreatedAt (fetchCandidates s (findMatches s e p)) = T :: O) :
    txBody s e p = matchedPath s e p T O := by
  rw [txBody]
  have : (findMatches s e p).isEmpty = false := by
    cases hm : findMatches s e p with
    | nil => exact absurd hm hne
    | cons a as => rfl
  simp only [this, Bool.false_eq_true, if_false, hsort]

theorem updOne_nil (pid t1 t2 : Nat) (c : Contact) : updOne [] pid t1 t2 c = c := by
  rw [updOne, if_neg (List.not_mem_nil c.id)]
  cases hl : c.linkedId with
  | none => rfl
  | some j => simp

theorem mergeStores_contacts_map (s : Store) (pid : Nat) (oids : List Nat) :
    (mergeStores s pid oids).contacts =
      s.contacts.map (updOne oids pid s.now (s.now + 1)) := by
  rw [mergeStores_contacts]
  split
  · rename_i hemp
    have hnil : oids = [] := List.isEmpty_iff.mp hemp
    subst hnil
    have hmap : s.contacts.map (updOne [] pid s.now (s.now + 1)) = s.contacts.map id :=
      List.map_congr_left fun c _ => updOne_nil pid s.now (s.now + 1) c
    rw [hmap, List.map_id]
  · rfl

theorem processContact_ok_cases {s : Store} {rE rP : Option String} {n : Nat}
    {r : ContactResponse} {s' : Store}
    (h : processContact s rE rP n = .ok (r, s')) :
    txBody s (normalizeEmail (jsOfOpt rE)) (normalizePhone (jsOfOpt rP)) = .ok (r, s') ∨
      (s' = s ∧
        conflictRecover s (normalizeEmail (jsOfOpt rE)) (normalizePhone (jsOfOpt rP)) = some r) := by
  revert h
  induction n with
  | zero =>
    intro h
    rw [processContact] at h
    split at h
    · cases h
    · split at h
      · rename_i rs heq
        left
        rw [heq]
        cases h
        rfl
      · cases h
      · cases h
  | succ k ih =>
    intro h
    rw [processContact] at h
    split at h
    · cases h
    · split at h
      · rename_i rs heq
        left
        rw [heq]
        cases h
        rfl
      · rename_i heq
        split at h
        · rename_i r' hrec
          right
          cases h
          exact ⟨rfl, hrec⟩
        · exact ih h
      · cases h

/-! ## Facts about the matched path in a well-formed store -/

theorem updOne_linkedId_reparent {oids : List Nat} {c : Contact}
    (hid : c.id ∉ oids) {j : Nat} (hj : c.linkedId = some j) (hjo : j ∈ oids)
    (pid t1 t2 : Nat) : (updOne oids pid t1 t2 c).linkedId = some pid := by
  rw [updOne, if_neg hid]
  simp only [hj, if_pos hjo]

theorem updOne_linkedId_of_id_mem {oids : List Nat} {c : Contact}
    (hid : c.id ∈ oids) (pid t1 t2 : Nat) :
    (updOne oids pid t1 t2 c).linkedId = some pid := by
  rw [updOne, if_pos hid]

/-- Every row fetched as a candidate primary is, in a well-formed store, an
actual primary row of the store. -/
theorem fetched_candidate_primary {s : Store} (hw : WellFormed s)
    {e p : Option String} {c : Contact}
    (hc : c ∈ fetchCandidates s (findMatches s e p)) :
    c ∈ s.contacts ∧ c.linkPrecedence = .primary := by
  obtain ⟨hcs, m, hm, hcand⟩ := mem_fetchCandidates.mp hc
  obtain ⟨d, hd, hdid, hdp⟩ := candidate_resolves hw hm
  have : d = c := id_inj hw hd hcs (by rw [hdid, hcand])
  subst this
  exact ⟨hcs, hdp⟩

theorem sorted_cons_facts {s : Store} (hw : WellFormed s) {e p : Option String}
    {T : Contact} {O : List Contact}
    (hsort : orderByCreatedAt (fetchCandidates s (findMatches s e p)) = T :: O) :
    (T ∈ s.contacts ∧ T.linkPrecedence = .primary) ∧
      (∀ o ∈ O, o ∈ s.contacts ∧ o.linkPrecedence = .primary) ∧
      ((T :: O).map Contact.id).Nodup := by
  have hmem : ∀ c ∈ T :: O, c ∈ fetchCandidates s (findMatches s e p) := by
    intro c hc
    rw [← hsort] at hc
    exact mem_orderByCreatedAt.mp hc
  refine ⟨fetched_candidate_primary hw (hmem T (List.mem_cons_self _ _)), ?_, ?_⟩
  · exact fun o ho => fetched_candidate_primary hw (hmem o (List.mem_cons_of_mem _ ho))
  · have h1 : ((fetchCandidates s (findMatches s e p)).map Contact.id).Nodup := by
      refine List.Nodup.sublist ?_ hw.nodup
      exact List.Sublist.map Contact.id (List.filter_sublist _)
    have h2 := (orderByCreatedAt_perm (fetchCandidates s (findMatches s e p))).map Contact.id
    rw [hsort] at h2
    exact h2.symm.nodup h1

/-- Every candidate primary id is the id of the head or of one of the tail
records of the ordered candidate fetch. -/
theorem cand_ids_covered {s : Store} (hw : WellFormed s) {e p : Option String}
    {T : Contact} {O : List Contact}
    (hsort : orderByCreatedAt (fetchCandidates s (findMatches s e p)) = T :: O)
    {cid : Nat} (hcid : cid ∈ jsSetDedup ((findMatches s e p).map candidatePrimaryId)) :
    cid = T.id ∨ cid ∈ O.map Contact.id := by
  rw [mem_jsSetDedup, List.mem_map] at hcid
  obtain ⟨m, hm, hcand⟩ := hcid
  obtain ⟨d, hd, hdid, hdp⟩ := candidate_resolves hw hm
  have hdf : d ∈ fetchCandidates s (findMatches s e p) :=
    mem_fetchCandidates.mpr ⟨hd, m, hm, by omega⟩
  have : d ∈ T :: O := by
    rw [← hsort]
    exact mem_orderByCreatedAt.mpr hdf
  rcases List.mem_cons.mp this with rfl | hdo
  · left
    omega
  · right
    have hcd : cid = d.id := by omega
    rw [hcd]
    exact List.mem_map_of_mem Contact.id hdo

/-- After the merge, every matched row (as updated) belongs to the
consolidated cluster. -/
theorem match_in_cluster {s : Store} (hw : WellFormed s) {e p : Option String}
    {T : Contact} {O : List Contact}
    (hsort : orderByCreatedAt (fetchCandidates s (findMatches s e p)) = T :: O)
    {m : Contact} (hm : m ∈ findMatches s e p) :
    updOne (O.map Contact.id) T.id s.now (s.now + 1) m ∈
      fetchCluster (mergeStores s T.id (O.map Contact.id)) (T.id :: O.map Contact.id) := by
  have hTnotin : T.id ∉ O.map Contact.id := by
    have := (sorted_cons_facts hw hsort).2.2
    rw [List.map_cons, List.nodup_cons] at this
    exact this.1
  refine mem_fetchCluster.mpr ⟨?_, ?_, ?_⟩
  · rw [mergeStores_contacts_map]
    exact List.mem_map_of_mem _ (mem_findMatches.mp hm).1
  · rw [updOne_deletedAt]
    exact (mem_findMatches.mp hm).2.1
  · have hcand : candidatePrimaryId m ∈
        jsSetDedup ((findMatches s e p).map candidatePrimaryId) :=
      mem_jsSetDedup.mpr (List.mem_map_of_mem candidatePrimaryId hm)
    by_cases hid : m.id ∈ O.map Contact.id
    · left
      rw [updOne_id]
      exact List.mem_cons_of_mem _ hid
    · cases hp : m.linkPrecedence with
      | primary =>
        have hcm : candidatePrimaryId m = m.id := by
          rw [candidatePrimaryId, hp]
        rw [hcm] at hcand
        rcases cand_ids_covered hw hsort hcand with h | h
        · left
          rw [updOne_id, h]
          exact List.mem_cons_self _ _
        · exact absurd h hid
      | secondary =>
        have hl := hw.secLinked m (mem_findMatches.mp hm).1 hp
        cases hj : m.linkedId with
        | none => exact absurd hj hl
        | some j =>
          have hj0 : j ≠ 0 := by
            obtain ⟨d, hd, hdid, _⟩ := linkTarget_exists
              (hw.links m (mem_findMatches.mp hm).1) hj
            have := hw.pos d hd
            omega
          have hcm : candidatePrimaryId m = j := by
            rw [candidatePrimaryId, hp, hj]
            simp [hj0]
          rw [hcm] at hcand
          rcases cand_ids_covered hw hsort hcand with h | h
          · right
            refine ⟨j, ?_, by rw [h]; exact List.mem_cons_self _ _⟩
            exact updOne_linkedId_of_not_mem hid hj (by rw [h]; exact hTnotin) _ _ _
          · right
            exact ⟨T.id, updOne_linkedId_reparent hid hj h _ _ _,
              List.mem_cons_self _ _⟩

/-- Every member of the consolidated cluster is the true primary itself or
is linked directly to it. -/
theorem cluster_mem_root {s : Store} {T : Contact}
    {O : List Contact} {c : Contact}
    (hc : c ∈ fetchCluster (mergeStores s T.id (O.map Contact.id))
      (T.id :: O.map Contact.id)) :
    c.id = T.id ∨ c.linkedId = some T.id := by
  obtain ⟨hcs, _, hroot⟩ := mem_fetchCluster.mp hc
  rw [mergeStores_contacts_map] at hcs
  obtain ⟨c0, hc0, rfl⟩ := List.mem_map.mp hcs
  rcases hroot with hid | ⟨j, hj, hjr⟩
  · rw [updOne_id] at hid ⊢
    rcases List.mem_cons.mp hid with h | h
    · exact Or.inl h
    · exact Or.inr (updOne_linkedId_of_id_mem h _ _ _)
  · rcases updOne_linkedId_cases _ _ _ _ _ hj with h | ⟨_, hnot⟩
    · subst h
      exact Or.inr hj
    · rcases List.mem_cons.mp hjr with h | h
      · subst h
        exact Or.inr hj
      · exact absurd h hnot

theorem fetchCandidates_ne_nil {s : Store} (hw : WellFormed s) {e p : Option String}
    (hne : findMatches s e p ≠ []) : fetchCandidates s (findMatches s e p) ≠ [] := by
  obtain ⟨m, hm⟩ := List.exists_mem_of_ne_nil _ hne
  obtain ⟨d, hd, hdid, _⟩ := candidate_resolves hw hm
  exact List.ne_nil_of_mem (mem_fetchCandidates.mpr ⟨hd, m, hm, hdid.symm⟩)

/-- Structure of the store and response produced by a successful matched
path: the response is anchored at the head candidate's id, and the store is
the merged store, possibly extended by one freshly created secondary linked
to the head candidate. -/
theorem matchedPath_store {s : Store} {e p : Option String} {T : Contact}
    {O : List Contact} {r : ContactResponse} {s' : Store}
    (h : matchedPath s e p T O = .ok (r, s')) :
    r.primaryContactId = T.id ∧
      (s'.contacts = (mergeStores s T.id (O.map Contact.id)).contacts ∨
        ∃ sec, s'.contacts = (mergeStores s T.id (O.map Contact.id)).contacts ++ [sec] ∧
          sec.id = s.nextId ∧ sec.linkPrecedence = .secondary ∧
          sec.linkedId = some T.id ∧ sec.deletedAt = none) := by
  have hnext := mergeStores_nextId s T.id (O.map Contact.id)
  cases e with
  | some ev =>
    cases p with
    | none =>
      rw [matchedPath_email_only] at h
      obtain ⟨sec, s2, hcr, hbr, rfl⟩ := finishCreate_ok h
      obtain ⟨hsec, hs2⟩ := createContact_ok hcr
      refine ⟨buildResponse_primaryContactId hbr, Or.inr ⟨sec, ?_, ?_, ?_, ?_, ?_⟩⟩
      · rw [hs2]
      · rw [hsec, hnext]
      · rw [hsec]
      · rw [hsec]
      · rw [hsec]
    | some pv =>
      rw [matchedPath_both] at h
      simp only at h
      split at h
      · obtain ⟨sec, s2, hcr, hbr, rfl⟩ := finishCreate_ok h
        obtain ⟨hsec, hs2⟩ := createContact_ok hcr
        refine ⟨buildResponse_primaryContactId hbr, Or.inr ⟨sec, ?_, ?_, ?_, ?_, ?_⟩⟩
        · rw [hs2]
        · rw [hsec, hnext]
        · rw [hsec]
        · rw [hsec]
        · rw [hsec]
      · obtain ⟨hbr, rfl⟩ := finishNoCreate_ok h
        exact ⟨buildResponse_primaryContactId hbr, Or.inl rfl⟩
  | none =>
    cases p with
    | some pv =>
      rw [matchedPath_phone_only] at h
      obtain ⟨sec, s2, hcr, hbr, rfl⟩ := finishCreate_ok h
      obtain ⟨hsec, hs2⟩ := createContact_ok hcr
      refine ⟨buildResponse_primaryContactId hbr, Or.inr ⟨sec, ?_, ?_, ?_, ?_, ?_⟩⟩
      · rw [hs2]
      · rw [hsec, hnext]
      · rw [hsec]
      · rw [hsec]
      · rw [hsec]
    | none =>
      have hrw : matchedPath s none none T O =
          finishNoCreate (mergeStores s T.id (O.map Contact.id)) T.id
            (fetchCluster (mergeStores s T.id (O.map Contact.id))
              (T.id :: O.map Contact.id)) := rfl
      rw [hrw] at h
      obtain ⟨hbr, rfl⟩ := finishNoCreate_ok h
      exact ⟨buildResponse_primaryContactId hbr, Or.inl rfl⟩

/-- C1: on the matched path with more than one distinct candidate primary
id, the head of the ordered candidate fetch — the row minimal in
`(createdAt, id)` among the fetched candidates — becomes the
`primaryContactId` of the response, and every other fetched candidate ends
up demoted to secondary with its `linkedId` pointing at the head. -/
theorem c1_true_primary_selection {s : Store} (hw : WellFormed s)
    {e p : Option String} {T : Contact} {O : List Contact}
    (hsort : orderByCreatedAt (fetchCandidates s (findMatches s e p)) = T :: O)
    (hmulti : 1 < (jsSetDedup ((findMatches s e p).map candidatePrimaryId)).length)
    {r : ContactResponse} {s' : Store}
    (hok : txBody s e p = .ok (r, s')) :
    r.primaryContactId = T.id ∧
      T ∈ fetchCandidates s (findMatches s e p) ∧
      (∀ q ∈ fetchCandidates s (findMatches s e p), byCreatedAt T q = true) ∧
      O ≠ [] ∧
      (∀ o ∈ O, ∀ d ∈ s'.contacts, d.id = o.id →
        d.linkPrecedence = .secondary ∧ d.linkedId = some T.id) := by
  have hne : findMatches s e p ≠ [] := by
    intro hmm
    rw [hmm] at hmulti
    simp [jsSetDedup] at hmulti
  rw [txBody_matched hne hsort] at hok
  obtain ⟨hpid, hstore⟩ := matchedPath_store hok
  have hTmem : T ∈ fetchCandidates s (findMatches s e p) := by
    have : T ∈ T :: O := List.mem_cons_self _ _
    rw [← hsort] at this
    exact mem_orderByCreatedAt.mp this
  have hOne : O ≠ [] := by
    intro hO
    subst hO
    rcases hd : jsSetDedup ((findMatches s e p).map candidatePrimaryId) with _ | ⟨x, _ | ⟨y, t⟩⟩
    · rw [hd] at hmulti; simp at hmulti
    · rw [hd] at hmulti; simp at hmulti
    · have hx : x = T.id ∨ x ∈ ([] : List Contact).map Contact.id :=
        cand_ids_covered hw hsort (by rw [hd]; exact List.mem_cons_self _ _)
      have hy : y = T.id ∨ y ∈ ([] : List Contact).map Contact.id :=
        cand_ids_covered hw hsort
          (by rw [hd]; exact List.mem_cons_of_mem _ (List.mem_cons_self _ _))
      have hnd := nodup_jsSetDedup ((findMatches s e p).map candidatePrimaryId)
      rw [hd, List.nodup_cons] at hnd
      rcases hx with rfl | hx
      · rcases hy with hy | hy
        · exact hnd.1 (by rw [hy]; exact List.mem_cons_self _ _)
        · simp at hy
      · simp at hx
  refine ⟨hpid, hTmem, orderByCreatedAt_head_min hsort, hOne, ?_⟩
  intro o ho d hd hdo
  have hofacts := (sorted_cons_facts hw hsort).2.1 o ho
  have hoid : o.id ∈ O.map Contact.id := List.mem_map_of_mem Contact.id ho
  have hmerged : ∀ d', d' ∈ (mergeStores s T.id (O.map Contact.id)).contacts →
      d'.id = o.id → d'.linkPrecedence = .secondary ∧ d'.linkedId = some T.id := by
    intro d' hd' hid'
    rw [mergeStores_contacts_map] at hd'
    obtain ⟨c0, hc0, rfl⟩ := List.mem_map.mp hd'
    rw [updOne_id] at hid'
    have hc0mem : c0.id ∈ O.map Contact.id := by rw [hid']; exact hoid
    rw [updOne_of_mem hc0mem]
    exact ⟨rfl, rfl⟩
  rcases hstore with hs | ⟨sec, hs, hsid, _, _, _⟩
  · rw [hs] at hd
    exact hmerged d hd hdo
  · rw [hs] at hd
    rcases List.mem_append.mp hd with hd | hd
    · exact hmerged d hd hdo
    · rw [List.mem_singleton] at hd
      subst hd
      have : o.id < s.nextId := hw.fresh o hofacts.1
      omega

/-! ## Concrete fixtures used by witnesses and counterexamples -/

/-- An older primary holding `a@x.com` / `111`. -/
def fixA : Contact :=
  ⟨1, some "a@x.com", some "111", none, .primary, 10, 10, none⟩

/-- A newer primary holding `b@x.com` / `222`. -/
def fixB : Contact :=
  ⟨2, some "b@x.com", some "222", none, .primary, 20, 20, none⟩

/-- A store with the two separate primaries `fixA` and `fixB`. -/
def fixAB : Store := ⟨[fixA, fixB], 3, 30⟩

/-- `fixB` after being demoted under `fixA`. -/
def fixBDem : Contact :=
  ⟨2, some "b@x.com", some "222", some 1, .secondary, 20, 31, none⟩

/-- Witness for C1: the bridging request `(a@x.com, 222)` against `fixAB`
merges the two clusters; the older `fixA` is selected and `fixB` is
demoted. -/
theorem c1_true_primary_selection_witness :
    (⟨1, ["a@x.com", "b@x.com"], ["111", "222"], [2]⟩ : ContactResponse).primaryContactId =
        fixA.id ∧
      fixA ∈ fetchCandidates fixAB (findMatches fixAB (some "a@x.com") (some "222")) ∧
      (∀ q ∈ fetchCandidates fixAB (findMatches fixAB (some "a@x.com") (some "222")),
        byCreatedAt fixA q = true) ∧
      ([fixB] : List Contact) ≠ [] ∧
      (∀ o ∈ ([fixB] : List Contact),
        ∀ d ∈ (⟨[fixA, fixBDem], 3, 32⟩ : Store).contacts, d.id = o.id →
          d.linkPrecedence = .secondary ∧ d.linkedId = some fixA.id) :=
  c1_true_primary_selection
    ⟨by decide, by decide, by decide, by decide, by decide⟩
    (show orderByCreatedAt
        (fetchCandidates fixAB (findMatches fixAB (some "a@x.com") (some "222"))) =
      fixA :: [fixB] by decide)
    (by decide)
    (show txBody fixAB (some "a@x.com") (some "222") =
      .ok (⟨1, ["a@x.com", "b@x.com"], ["111", "222"], [2]⟩, ⟨[fixA, fixBDem], 3, 32⟩)
      by decide)

/-! ## Flattening invariant (claim C2) -/

theorem emptyPath_ok {s : Store} {e p : Option String} {r : ContactResponse}
    {s' : Store} (h : emptyPath s e p = .ok (r, s')) :
    ∃ c s2, createContact s e p .primary none = .ok (c, s2) ∧
      buildResponse c.id [c] = some r ∧ s' = s2 := by
  rw [emptyPath] at h
  split at h
  · cases h
  · rename_i c s2 heq
    split at h
    · rename_i r' hb
      simp only [Except.ok.injEq, Prod.mk.injEq] at h
      obtain ⟨hr, hs⟩ := h
      exact ⟨c, s2, heq, by rw [hr] at hb; exact hb, hs.symm⟩
    · cases h

theorem txBody_matched_nil {s : Store} {e p : Option String}
    (hne : findMatches s e p ≠ [])
    (hnil : orderByCreatedAt (fetchCandidates s (findMatches s e p)) = []) :
    txBody s e p = .error .runtimeFailure := by
  rw [txBody]
  have hfalse : (findMatches s e p).isEmpty = false := by
    cases hm : findMatches s e p with
    | nil => exact absurd hm hne
    | cons a as => rfl
  simp only [hfalse, Bool.false_eq_true, if_false, hnil]

/-- A successful transaction body preserves the flattening invariant. -/
theorem txBody_flat {s : Store} (hw : WellFormed s) {e p : Option String}
    {r : ContactResponse} {s' : Store} (hok : txBody s e p = .ok (r, s')) :
    Flat s' := by
  by_cases hne : findMatches s e p = []
  · rw [txBody_empty hne] at hok
    obtain ⟨c, s2, hcr, _, rfl⟩ := emptyPath_ok hok
    obtain ⟨hc, hs2⟩ := createContact_ok hcr
    intro x hx d hd j hxj hdj
    rw [hs2] at hx hd
    simp only [List.mem_append, List.mem_singleton] at hx hd
    rcases hx with hx | rfl
    · obtain ⟨d1, hd1, hid1, hp1⟩ := linkTarget_exists (hw.links x hx) hxj
      rcases hd with hd | rfl
      · have hde : d = d1 := id_inj hw hd hd1 (by omega)
        rw [hde]
        exact hp1
      · exfalso
        have hfr := hw.fresh d1 hd1
        have hdid : d.id = s.nextId := by rw [hc]
        omega
    · exfalso
      have : x.linkedId = none := by rw [hc]
      rw [this] at hxj
      cases hxj
  · cases hsortv : orderByCreatedAt (fetchCandidates s (findMatches s e p)) with
    | nil =>
      rw [txBody_matched_nil hne hsortv] at hok
      cases hok
    | cons T O =>
      rw [txBody_matched hne hsortv] at hok
      obtain ⟨hpid, hstore⟩ := matchedPath_store hok
      obtain ⟨⟨hTmem, hTprim⟩, hOfacts, hnodup⟩ := sorted_cons_facts hw hsortv
      have hTnotin : T.id ∉ O.map Contact.id := by
        rw [List.map_cons, List.nodup_cons] at hnodup
        exact hnodup.1
      have hmem_char : ∀ x, x ∈ s'.contacts →
          (∃ x0, x0 ∈ s.contacts ∧
            x = updOne (O.map Contact.id) T.id s.now (s.now + 1) x0) ∨
          (x.id = s.nextId ∧ x.linkedId = some T.id) := by
        intro x hx
        rcases hstore with hs | ⟨sec, hs, hsid, _, hsl, _⟩
        · rw [hs, mergeStores_contacts_map] at hx
          obtain ⟨x0, hx0, rfl⟩ := List.mem_map.mp hx
          exact Or.inl ⟨x0, hx0, rfl⟩
        · rw [hs, mergeStores_contacts_map] at hx
          rcases List.mem_append.mp hx with hx | hx
          · obtain ⟨x0, hx0, rfl⟩ := List.mem_map.mp hx
            exact Or.inl ⟨x0, hx0, rfl⟩
          · rw [List.mem_singleton] at hx
            subst hx
            exact Or.inr ⟨hsid, hsl⟩
      intro c hc d hd j hcj hdj
      have hjcase : j = T.id ∨
          ∃ d1, d1 ∈ s.contacts ∧ d1.id = j ∧ d1.linkPrecedence = .primary ∧
            j ∉ O.map Contact.id := by
        rcases hmem_char c hc with ⟨c0, hc0, rfl⟩ | ⟨_, hl⟩
        · rcases updOne_linkedId_cases _ _ _ _ _ hcj with h | ⟨hl0, hnot⟩
          · exact Or.inl h
          · obtain ⟨d1, hd1, hid1, hp1⟩ := linkTarget_exists (hw.links c0 hc0) hl0
            exact Or.inr ⟨d1, hd1, hid1, hp1, hnot⟩
        · rw [hl] at hcj
          exact Or.inl (Option.some.inj hcj).symm
      rcases hmem_char d hd with ⟨d0, hd0, rfl⟩ | ⟨hdid, _⟩
      · rw [updOne_id] at hdj
        rcases hjcase with rfl | ⟨d1, hd1, hid1, hp1, hnot⟩
        · have hdT : d0 = T := id_inj hw hd0 hTmem (by omega)
          rw [updOne_precedence_of_not_mem (by rw [hdT]; exact hTnotin)]
          rw [hdT]
          exact hTprim
        · have hdd : d0 = d1 := id_inj hw hd0 hd1 (by omega)
          rw [updOne_precedence_of_not_mem (by rw [hdj]; exact hnot)]
          rw [hdd]
          exact hp1
      · exfalso
        have hjlt : j < s.nextId := by
          rcases hjcase with rfl | ⟨d1, hd1, hid1, _, _⟩
          · exact hw.fresh T hTmem
          · have := hw.fresh d1 hd1
            omega
        omega

/-- C2: after any completed `processContact` call on a well-formed store, no
record's `linkedId` points at a record whose own precedence is secondary:
the merge engine re-parents the dependents of every superseded primary to
the true primary before demoting the superseded primaries, so the
two-level hierarchy is preserved. -/
theorem c2_flattening_invariant {s : Store} (hw : WellFormed s)
    {rE rP : Option String} {n : Nat} {r : ContactResponse} {s' : Store}
    (hok : processContact s rE rP n = .ok (r, s')) : Flat s' := by
  rcases processContact_ok_cases hok with htx | ⟨rfl, _⟩
  · exact txBody_flat hw htx
  · intro c hc d hd j hcj hdj
    obtain ⟨d1, hd1, hid1, hp1⟩ := linkTarget_exists (hw.links c hc) hcj
    have hde : d = d1 := id_inj hw hd hd1 (by omega)
    rw [hde]
    exact hp1

/-- Witness for C2: the merge run of the `fixAB` fixture ends in a store
satisfying the flattening invariant. -/
theorem c2_flattening_invariant_witness :
    Flat (⟨[fixA, fixBDem], 3, 32⟩ : Store) :=
  c2_flattening_invariant
    ⟨by decide, by decide, by decide, by decide, by decide⟩
    (show processContact fixAB (some "a@x.com") (some "222") 3 =
      .ok (⟨1, ["a@x.com", "b@x.com"], ["111", "222"], [2]⟩, ⟨[fixA, fixBDem], 3, 32⟩)
      by decide)

/-! ## Claims C5 and C4: the new-information decision -/

theorem txBody_ok_sorted {s : Store} {e p : Option String} {r : ContactResponse}
    {s' : Store} (hne : findMatches s e p ≠ [])
    (hok : txBody s e p = .ok (r, s')) :
    ∃ T O, orderByCreatedAt (fetchCandidates s (findMatches s e p)) = T :: O ∧
      matchedPath s e p T O = .ok (r, s') := by
  cases hsortv : orderByCreatedAt (fetchCandidates s (findMatches s e p)) with
  | nil =>
    rw [txBody_matched_nil hne hsortv] at hok
    cases hok
  | cons T O =>
    refine ⟨T, O, rfl, ?_⟩
    rw [← txBody_matched hne hsortv]
    exact hok

/-- C5: a single-identifier request that matches an existing cluster
unconditionally appends exactly one new secondary carrying only that
identifier, linked to the true primary — even when the identifier's exact
value is already present in the cluster. -/
theorem c5_single_identifier_touchpoint :
    (∀ (s : Store) (e : String) (r : ContactResponse) (s' : Store),
      findMatches s (some e) none ≠ [] →
      txBody s (some e) none = .ok (r, s') →
      ∃ prev sec, s'.contacts = prev ++ [sec] ∧ prev.length = s.contacts.length ∧
        sec.email = some e ∧ sec.phoneNumber = none ∧
        sec.linkPrecedence = .secondary ∧ sec.linkedId = some r.primaryContactId ∧
        sec.id = s.nextId) ∧
    (∀ (s : Store) (p : String) (r : ContactResponse) (s' : Store),
      findMatches s none (some p) ≠ [] →
      txBody s none (some p) = .ok (r, s') →
      ∃ prev sec, s'.contacts = prev ++ [sec] ∧ prev.length = s.contacts.length ∧
        sec.email = none ∧ sec.phoneNumber = some p ∧
        sec.linkPrecedence = .secondary ∧ sec.linkedId = some r.primaryContactId ∧
        sec.id = s.nextId) := by
  constructor
  · intro s e r s' hne hok
    obtain ⟨T, O, hsort, hmp⟩ := txBody_ok_sorted hne hok
    rw [matchedPath_email_only] at hmp
    obtain ⟨sec, s2, hcr, hbr, rfl⟩ := finishCreate_ok hmp
    obtain ⟨hsec, hs2⟩ := createContact_ok hcr
    refine ⟨(mergeStores s T.id (O.map Contact.id)).contacts, sec, ?_, ?_, ?_, ?_, ?_, ?_, ?_⟩
    · rw [hs2]
    · rw [mergeStores_contacts_map, List.length_map]
    · rw [hsec]
    · rw [hsec]
    · rw [hsec]
    · rw [hsec, buildResponse_primaryContactId hbr]
    · rw [hsec, mergeStores_nextId]
  · intro s p r s' hne hok
    obtain ⟨T, O, hsort, hmp⟩ := txBody_ok_sorted hne hok
    rw [matchedPath_phone_only] at hmp
    obtain ⟨sec, s2, hcr, hbr, rfl⟩ := finishCreate_ok hmp
    obtain ⟨hsec, hs2⟩ := createContact_ok hcr
    refine ⟨(mergeStores s T.id (O.map Contact.id)).contacts, sec, ?_, ?_, ?_, ?_, ?_, ?_, ?_⟩
    · rw [hs2]
    · rw [mergeStores_contacts_map, List.length_map]
    · rw [hsec]
    · rw [hsec]
    · rw [hsec]
    · rw [hsec, buildResponse_primaryContactId hbr]
    · rw [hsec, mergeStores_nextId]

/-- The store holding only the primary `fixA`. -/
def fixOnlyA : Store := ⟨[fixA], 2, 30⟩

/-- The duplicate touchpoint secondary created by an `a@x.com`-only request
against `fixOnlyA`. -/
def fixSecA : Contact := ⟨2, some "a@x.com", none, some 1, .secondary, 30, 30, none⟩

/-- Witness for C5: an email-only request whose email already exists in the
cluster still creates a new secondary touchpoint. -/
theorem c5_single_identifier_touchpoint_witness :
    ∃ prev sec, (⟨[fixA, fixSecA], 3, 31⟩ : Store).contacts = prev ++ [sec] ∧
      prev.length = fixOnlyA.contacts.length ∧
      sec.email = some "a@x.com" ∧ sec.phoneNumber = none ∧
      sec.linkPrecedence = .secondary ∧
      sec.linkedId =
        some (⟨1, ["a@x.com"], ["111"], [2]⟩ : ContactResponse).primaryContactId ∧
      sec.id = fixOnlyA.nextId :=
  c5_single_identifier_touchpoint.1 fixOnlyA "a@x.com"
    ⟨1, ["a@x.com"], ["111"], [2]⟩ ⟨[fixA, fixSecA], 3, 31⟩
    (by decide)
    (by decide)

/-- C4: a both-identifier request that matches an existing cluster creates
zero records when both exact values already occur in the consolidated
cluster, and otherwise exactly one secondary carrying only the values not
yet present, linked to the true primary. -/
theorem c4_both_fields_minimality {s : Store} {e p : String}
    (hne : findMatches s (some e) (some p) ≠ []) {T : Contact} {O : List Contact}
    (hsort : orderByCreatedAt (fetchCandidates s (findMatches s (some e) (some p))) = T :: O)
    {r : ContactResponse} {s' : Store}
    (hok : txBody s (some e) (some p) = .ok (r, s')) :
    (((fetchCluster (mergeStores s T.id (O.map Contact.id))
          (T.id :: O.map Contact.id)).any (fun c => c.email == some e) = true ∧
      (fetchCluster (mergeStores s T.id (O.map Contact.id))
          (T.id :: O.map Contact.id)).any (fun c => c.phoneNumber == some p) = true) →
        s'.contacts = (mergeStores s T.id (O.map Contact.id)).contacts ∧
          s'.contacts.length = s.contacts.length) ∧
    (¬((fetchCluster (mergeStores s T.id (O.map Contact.id))
          (T.id :: O.map Contact.id)).any (fun c => c.email == some e) = true ∧
      (fetchCluster (mergeStores s T.id (O.map Contact.id))
          (T.id :: O.map Contact.id)).any (fun c => c.phoneNumber == some p) = true) →
        ∃ sec, s'.contacts = (mergeStores s T.id (O.map Contact.id)).contacts ++ [sec] ∧
          s'.contacts.length = s.contacts.length + 1 ∧
          sec.email = (if (fetchCluster (mergeStores s T.id (O.map Contact.id))
              (T.id :: O.map Contact.id)).any (fun c => c.email == some e) then none
            else some e) ∧
          sec.phoneNumber = (if (fetchCluster (mergeStores s T.id (O.map Contact.id))
              (T.id :: O.map Contact.id)).any (fun c => c.phoneNumber == some p) then none
            else some p) ∧
          sec.linkPrecedence = .secondary ∧
          sec.linkedId = some r.primaryContactId) := by
  rw [txBody_matched hne hsort, matchedPath_both] at hok
  simp only at hok
  split at hok
  · rename_i hcond
    rw [Bool.or_eq_true, Bool.not_eq_true', Bool.not_eq_true'] at hcond
    obtain ⟨sec, s2, hcr, hbr, rfl⟩ := finishCreate_ok hok
    obtain ⟨hsec, hs2⟩ := createContact_ok hcr
    constructor
    · rintro ⟨hE, hP⟩
      rcases hcond with h | h
      · rw [hE] at h; cases h
      · rw [hP] at h; cases h
    · intro _
      refine ⟨sec, ?_, ?_, ?_, ?_, ?_, ?_⟩
      · rw [hs2]
      · rw [hs2]
        simp only [List.length_append, List.length_singleton,
          mergeStores_contacts_map, List.length_map]
      · rw [hsec]
        simp only
        rcases hcase : (fetchCluster (mergeStores s T.id (O.map Contact.id))
            (T.id :: O.map Contact.id)).any (fun c => c.email == some e) with _ | _
        · simp [hcase]
        · simp [hcase]
      · rw [hsec]
        simp only
        rcases hcase : (fetchCluster (mergeStores s T.id (O.map Contact.id))
            (T.id :: O.map Contact.id)).any (fun c => c.phoneNumber == some p) with _ | _
        · simp [hcase]
        · simp [hcase]
      · rw [hsec]
      · rw [hsec, buildResponse_primaryContactId hbr]
  · rename_i hcond
    rw [Bool.or_eq_true, not_or, Bool.not_eq_true', Bool.not_eq_true'] at hcond
    simp only [Bool.not_eq_false] at hcond
    obtain ⟨hbr, rfl⟩ := finishNoCreate_ok hok
    constructor
    · intro _
      refine ⟨rfl, ?_⟩
      rw [mergeStores_contacts_map, List.length_map]
    · intro hcontra
      exact absurd hcond hcontra

/-- Witness for C4: the bridging request against `fixAB` finds both values
already present after the merge and creates no record. -/
theorem c4_both_fields_minimality_witness :
    (((fetchCluster (mergeStores fixAB fixA.id ([fixB].map Contact.id))
          (fixA.id :: ([fixB].map Contact.id))).any
            (fun c => c.email == some "a@x.com") = true ∧
      (fetchCluster (mergeStores fixAB fixA.id ([fixB].map Contact.id))
          (fixA.id :: ([fixB].map Contact.id))).any
            (fun c => c.phoneNumber == some "222") = true) →
        (⟨[fixA, fixBDem], 3, 32⟩ : Store).contacts =
            (mergeStores fixAB fixA.id ([fixB].map Contact.id)).contacts ∧
          (⟨[fixA, fixBDem], 3, 32⟩ : Store).contacts.length =
            fixAB.contacts.length) ∧
    (¬((fetchCluster (mergeStores fixAB fixA.id ([fixB].map Contact.id))
          (fixA.id :: ([fixB].map Contact.id))).any
            (fun c => c.email == some "a@x.com") = true ∧
      (fetchCluster (mergeStores fixAB fixA.id ([fixB].map Contact.id))
          (fixA.id :: ([fixB].map Contact.id))).any
            (fun c => c.phoneNumber == some "222") = true) →
        ∃ sec, (⟨[fixA, fixBDem], 3, 32⟩ : Store).contacts =
            (mergeStores fixAB fixA.id ([fixB].map Contact.id)).contacts ++ [sec] ∧
          (⟨[fixA, fixBDem], 3, 32⟩ : Store).contacts.length =
            fixAB.contacts.length + 1 ∧
          sec.email = (if (fetchCluster (mergeStores fixAB fixA.id ([fixB].map Contact.id))
              (fixA.id :: ([fixB].map Contact.id))).any
                (fun c => c.email == some "a@x.com") then none else some "a@x.com") ∧
          sec.phoneNumber = (if (fetchCluster (mergeStores fixAB fixA.id ([fixB].map Contact.id))
              (fixA.id :: ([fixB].map Contact.id))).any
                (fun c => c.phoneNumber == some "222") then none else some "222") ∧
          sec.linkPrecedence = .secondary ∧
          sec.linkedId =
            some (⟨1, ["a@x.com", "b@x.com"], ["111", "222"], [2]⟩ :
              ContactResponse).primaryContactId) :=
  c4_both_fields_minimality (by decide)
    (show orderByCreatedAt
        (fetchCandidates fixAB (findMatches fixAB (some "a@x.com") (some "222"))) =
      fixA :: [fixB] by decide)
    (show txBody fixAB (some "a@x.com") (some "222") =
      .ok (⟨1, ["a@x.com", "b@x.com"], ["111", "222"], [2]⟩, ⟨[fixA, fixBDem], 3, 32⟩)
      by decide)

/-! ## Machinery for idempotence (claim C3) -/

theorem candidatePrimaryId_primary {c : Contact}
    (hp : c.linkPrecedence = .primary) : candidatePrimaryId c = c.id := by
  cases hl : c.linkedId <;> simp [candidatePrimaryId, hp, hl]

theorem candidatePrimaryId_secondary {c : Contact} {t : Nat}
    (hp : c.linkPrecedence = .secondary) (hl : c.linkedId = some t) (ht : t ≠ 0) :
    candidatePrimaryId c = t := by
  simp [candidatePrimaryId, hp, hl, ht]

theorem matchesEither_updOne (e p : Option String) (o : List Nat) (pid t1 t2 : Nat)
    (c : Contact) :
    matchesEither e p (updOne o pid t1 t2 c) = matchesEither e p c := by
  rw [matchesEither, matchesEither, updOne_email, updOne_phone]

theorem filter_id_singleton {l : List Contact} (hn : (l.map Contact.id).Nodup)
    {x : Contact} (hx : x ∈ l) {tid : Nat} (hxid : x.id = tid) :
    l.filter (fun c => decide (c.id ∈ ([tid] : List Nat))) = [x] := by
  induction l with
  | nil => cases hx
  | cons b bs ih =>
    rw [List.map_cons, List.nodup_cons] at hn
    rcases List.mem_cons.mp hx with rfl | hx
    · rw [List.filter_cons_of_pos (by simp [hxid])]
      have hrest : bs.filter (fun c => decide (c.id ∈ ([tid] : List Nat))) = [] := by
        rw [List.filter_eq_nil_iff]
        intro c hc
        simp only [List.mem_singleton, decide_eq_true_eq]
        intro hcid
        exact hn.1 (by rw [hxid, ← hcid]; exact List.mem_map_of_mem Contact.id hc)
      rw [hrest]
    · have hbne : b.id ≠ tid := by
        intro hb
        exact hn.1 (by rw [hb, ← hxid]; exact List.mem_map_of_mem Contact.id hx)
      rw [List.filter_cons_of_neg (by simp [hbne]), ih hn.2 hx]

theorem buildResponse_mem {pid : Nat} {chain : List Contact} {r : ContactResponse}
    (h : buildResponse pid chain = some r) : ∃ prim ∈ chain, prim.id = pid := by
  rw [buildResponse] at h
  split at h
  · cases h
  · rename_i prim hfind
    exact ⟨prim, List.mem_of_find?_eq_some hfind,
      by simpa using List.find?_some hfind⟩

theorem buildResponse_some_of_mem {pid : Nat} {chain : List Contact}
    (h : ∃ x ∈ chain, x.id = pid) :
    ∃ r, buildResponse pid chain = some r ∧ r.primaryContactId = pid := by
  obtain ⟨x, hx, hxid⟩ := h
  have hsome : (chain.find? (fun c => c.id == pid)).isSome = true :=
    List.find?_isSome.mpr ⟨x, hx, by simp [hxid]⟩
  obtain ⟨prim, hprim⟩ := Option.isSome_iff_exists.mp hsome
  rw [buildResponse, hprim]
  exact ⟨_, rfl, rfl⟩

theorem map_updOne_ids (l : List Contact) (o : List Nat) (pid t1 t2 : Nat) :
    (l.map (updOne o pid t1 t2)).map Contact.id = l.map Contact.id := by
  rw [List.map_map]
  exact List.map_congr_left fun c _ => updOne_id o pid t1 t2 c

/-- Candidate id computed for a matched row after the merge update: it is
always the true primary's id. -/
theorem call2_cand_T {s : Store} (hw : WellFormed s) {e p : Option String}
    {T : Contact} {O : List Contact}
    (hsort : orderByCreatedAt (fetchCandidates s (findMatches s e p)) = T :: O)
    {m0 : Contact} (hm0 : m0 ∈ findMatches s e p) :
    candidatePrimaryId (updOne (O.map Contact.id) T.id s.now (s.now + 1) m0) = T.id := by
  obtain ⟨⟨hTmem, hTprim⟩, _, hnodup⟩ := sorted_cons_facts hw hsort
  have hTnotin : T.id ∉ O.map Contact.id := by
    rw [List.map_cons, List.nodup_cons] at hnodup
    exact hnodup.1
  have hT0 : T.id ≠ 0 := by
    have := hw.pos T hTmem
    omega
  have hm0s : m0 ∈ s.contacts := (mem_findMatches.mp hm0).1
  have hcand_mem : candidatePrimaryId m0 ∈
      jsSetDedup ((findMatches s e p).map candidatePrimaryId) :=
    mem_jsSetDedup.mpr (List.mem_map_of_mem candidatePrimaryId hm0)
  by_cases hid : m0.id ∈ O.map Contact.id
  · rw [updOne_of_mem hid]
    exact candidatePrimaryId_secondary rfl rfl hT0
  · cases hp : m0.linkPrecedence with
    | primary =>
      have hcp : candidatePrimaryId m0 = m0.id := candidatePrimaryId_primary hp
      rw [hcp] at hcand_mem
      rcases cand_ids_covered hw hsort hcand_mem with hTeq | hoid
      · have hprec := updOne_precedence_of_not_mem hid T.id s.now (s.now + 1)
        rw [hp] at hprec
        rw [candidatePrimaryId_primary hprec, updOne_id]
        exact hTeq
      · exact absurd hoid hid
    | secondary =>
      have hl := hw.secLinked m0 hm0s hp
      cases hj : m0.linkedId with
      | none => exact absurd hj hl
      | some j =>
        have hj0 : j ≠ 0 := by
          obtain ⟨d, hd, hdid, _⟩ := linkTarget_exists (hw.links m0 hm0s) hj
          have := hw.pos d hd
          omega
        have hcp : candidatePrimaryId m0 = j := candidatePrimaryId_secondary hp hj hj0
        rw [hcp] at hcand_mem
        have hprec := updOne_precedence_of_not_mem hid T.id s.now (s.now + 1)
        rw [hp] at hprec
        rcases cand_ids_covered hw hsort hcand_mem with hTeq | hoid
        · subst hTeq
          exact candidatePrimaryId_secondary hprec
            (updOne_linkedId_of_not_mem hid hj hTnotin _ _ _) hT0
        · exact candidatePrimaryId_secondary hprec
            (updOne_linkedId_reparent hid hj hoid _ _ _) hT0

/-- Evaluation of the transaction body on a store in which one live row
carries the target id, every match resolves to that id, and both exact
identifiers are already present in the target's cluster: the body succeeds
without modifying the store and anchors the response at the target id. -/
theorem txBody_second_eval {s1 : Store} {e p : String} {tid : Nat} {T2 : Contact}
    (hnodup1 : NodupIds s1) (hT2 : T2 ∈ s1.contacts) (hT2id : T2.id = tid)
    (hT2live : T2.deletedAt = none)
    (hall : ∀ m ∈ findMatches s1 (some e) (some p), candidatePrimaryId m = tid)
    (hE : ∃ cE, cE ∈ s1.contacts ∧ cE.deletedAt = none ∧ cE.email = some e ∧
      (cE.id = tid ∨ cE.linkedId = some tid))
    (hP : ∃ cP, cP ∈ s1.contacts ∧ cP.deletedAt = none ∧ cP.phoneNumber = some p ∧
      (cP.id = tid ∨ cP.linkedId = some tid)) :
    ∃ r2, txBody s1 (some e) (some p) = .ok (r2, s1) ∧ r2.primaryContactId = tid := by
  obtain ⟨cE, hcEs, hcElive, hcEe, hcEroot⟩ := hE
  obtain ⟨cP, hcPs, hcPlive, hcPp, hcProot⟩ := hP
  have hcEm : cE ∈ findMatches s1 (some e) (some p) :=
    mem_findMatches.mpr ⟨hcEs, hcElive, by simp [matchesEither, hcEe]⟩
  have hne2 : findMatches s1 (some e) (some p) ≠ [] := List.ne_nil_of_mem hcEm
  have hcand2 : jsSetDedup ((findMatches s1 (some e) (some p)).map candidatePrimaryId) =
      [tid] := by
    refine jsSetDedup_const ?_ ?_
    · intro hmm
      rw [List.map_eq_nil_iff] at hmm
      exact hne2 hmm
    · intro x hx
      rw [List.mem_map] at hx
      obtain ⟨m, hm, rfl⟩ := hx
      exact hall m hm
  have hfetch2 : fetchCandidates s1 (findMatches s1 (some e) (some p)) = [T2] := by
    rw [fetchCandidates, hcand2]
    exact filter_id_singleton hnodup1 hT2 hT2id
  have hsort2 : orderByCreatedAt (fetchCandidates s1 (findMatches s1 (some e) (some p))) =
      T2 :: [] := by
    rw [hfetch2]
    rfl
  have hms : mergeStores s1 T2.id (([] : List Contact).map Contact.id) = s1 := rfl
  have hT2c : T2 ∈ fetchCluster s1 (T2.id :: ([] : List Contact).map Contact.id) :=
    mem_fetchCluster.mpr ⟨hT2, hT2live, Or.inl (List.mem_cons_self _ _)⟩
  have hcEc : cE ∈ fetchCluster s1 (T2.id :: ([] : List Contact).map Contact.id) := by
    refine mem_fetchCluster.mpr ⟨hcEs, hcElive, ?_⟩
    rcases hcEroot with h | h
    · exact Or.inl (by rw [h, hT2id]; exact List.mem_cons_self _ _)
    · exact Or.inr ⟨tid, h, by rw [hT2id]; exact List.mem_cons_self _ _⟩
  have hcPc : cP ∈ fetchCluster s1 (T2.id :: ([] : List Contact).map Contact.id) := by
    refine mem_fetchCluster.mpr ⟨hcPs, hcPlive, ?_⟩
    rcases hcProot with h | h
    · exact Or.inl (by rw [h, hT2id]; exact List.mem_cons_self _ _)
    · exact Or.inr ⟨tid, h, by rw [hT2id]; exact List.mem_cons_self _ _⟩
  have hEany : (fetchCluster s1 (T2.id :: ([] : List Contact).map Contact.id)).any
      (fun c => c.email == some e) = true :=
    List.any_eq_true.mpr ⟨cE, hcEc, by simp [hcEe]⟩
  have hPany : (fetchCluster s1 (T2.id :: ([] : List Contact).map Contact.id)).any
      (fun c => c.phoneNumber == some p) = true :=
    List.any_eq_true.mpr ⟨cP, hcPc, by simp [hcPp]⟩
  obtain ⟨r2, hbr2, hr2pid⟩ := buildResponse_some_of_mem ⟨T2, hT2c, rfl⟩
  refine ⟨r2, ?_, by rw [hr2pid, hT2id]⟩
  rw [txBody_matched hne2 hsort2, matchedPath_both]
  simp only [hms, hEany, hPany, Bool.not_true, Bool.or_self, Bool.false_or,
    if_false, Bool.false_eq_true]
  rw [finishNoCreate, hbr2]

/-- The unique row carrying the true primary's id in the merged store is the
updated true primary itself. -/
theorem merged_row_with_Tid {s : Store} (hw : WellFormed s) {T : Contact}
    (hTmem : T ∈ s.contacts) {O : List Contact} {prim : Contact}
    (hmem : prim ∈ (mergeStores s T.id (O.map Contact.id)).contacts)
    (hid : prim.id = T.id) :
    prim = updOne (O.map Contact.id) T.id s.now (s.now + 1) T := by
  rw [mergeStores_contacts_map] at hmem
  obtain ⟨c0, hc0, rfl⟩ := List.mem_map.mp hmem
  rw [updOne_id] at hid
  have : c0 = T := id_inj hw hc0 hTmem hid
  rw [this]

/-- A value occurring in the consolidated cluster is carried by a live row
of the merged store that is the true primary or linked directly to it. -/
theorem cluster_any_witness {s : Store} {T : Contact} {O : List Contact}
    {f : Contact → Option String} {v : String}
    (h : (fetchCluster (mergeStores s T.id (O.map Contact.id))
        (T.id :: O.map Contact.id)).any (fun c => f c == some v) = true) :
    ∃ cE, cE ∈ (mergeStores s T.id (O.map Contact.id)).contacts ∧
      cE.deletedAt = none ∧ f cE = some v ∧
      (cE.id = T.id ∨ cE.linkedId = some T.id) := by
  obtain ⟨cE, hcE, hbeq⟩ := List.any_eq_true.mp h
  have hroot := cluster_mem_root hcE
  obtain ⟨hmem, hlive, _⟩ := mem_fetchCluster.mp hcE
  exact ⟨cE, hmem, hlive, by simpa using hbeq, hroot⟩

/-- Running the transaction body again with the same two identifiers right
after a successful run returns the same true primary id and leaves the
store untouched. -/
theorem second_call_tx {s : Store} (hw : WellFormed s) {e p : String}
    {r1 : ContactResponse} {s1 : Store}
    (h1 : txBody s (some e) (some p) = .ok (r1, s1)) :
    ∃ r2, txBody s1 (some e) (some p) = .ok (r2, s1) ∧
      r2.primaryContactId = r1.primaryContactId := by
  by_cases hne : findMatches s (some e) (some p) = []
  · rw [txBody_empty hne] at h1
    obtain ⟨c, s2, hcr, hbr, rfl⟩ := emptyPath_ok h1
    obtain ⟨hc, hs2⟩ := createContact_ok hcr
    have hr1 : r1.primaryContactId = c.id := buildResponse_primaryContactId hbr
    have hcmem : c ∈ s1.contacts := by
      rw [hs2]
      exact List.mem_append_right _ (List.mem_singleton.mpr rfl)
    have hclive : c.deletedAt = none := by rw [hc]
    have hnodup2 : NodupIds s1 := by
      rw [NodupIds, hs2, List.map_append, List.nodup_append]
      refine ⟨hw.nodup, List.nodup_singleton _, ?_⟩
      intro a ha hb
      obtain ⟨d, hd, rfl⟩ := List.mem_map.mp ha
      simp only [List.map_cons, List.map_nil, List.mem_singleton] at hb
      have hfr := hw.fresh d hd
      rw [hb, hc] at hfr
      simp only at hfr
      omega
    have hall : ∀ m ∈ findMatches s1 (some e) (some p), candidatePrimaryId m = c.id := by
      intro m hm
      obtain ⟨hms, hmlive, hmmatch⟩ := mem_findMatches.mp hm
      rw [hs2] at hms
      rcases List.mem_append.mp hms with hmem | hmem
      · exfalso
        have hmm : m ∈ findMatches s (some e) (some p) :=
          mem_findMatches.mpr ⟨hmem, hmlive, hmmatch⟩
        rw [hne] at hmm
        cases hmm
      · rw [List.mem_singleton] at hmem
        subst hmem
        exact candidatePrimaryId_primary (by rw [hc])
    obtain ⟨r2, htx2, hpid2⟩ := txBody_second_eval hnodup2 hcmem rfl hclive hall
      ⟨c, hcmem, hclive, by rw [hc], Or.inl rfl⟩
      ⟨c, hcmem, hclive, by rw [hc], Or.inl rfl⟩
    exact ⟨r2, htx2, by rw [hpid2, hr1]⟩
  · obtain ⟨T, O, hsort, hmp⟩ := txBody_ok_sorted hne h1
    obtain ⟨⟨hTmem, hTprim⟩, hOfacts, hnodupTO⟩ := sorted_cons_facts hw hsort
    have hTnotin : T.id ∉ O.map Contact.id := by
      rw [List.map_cons, List.nodup_cons] at hnodupTO
      exact hnodupTO.1
    have hTfresh := hw.fresh T hTmem
    have hT0 : T.id ≠ 0 := by
      have := hw.pos T hTmem
      omega
    have hmergedids : ((mergeStores s T.id (O.map Contact.id)).contacts.map Contact.id) =
        s.contacts.map Contact.id := by
      rw [mergeStores_contacts_map, map_updOne_ids]
    have hT'mem0 : updOne (O.map Contact.id) T.id s.now (s.now + 1) T ∈
        (mergeStores s T.id (O.map Contact.id)).contacts := by
      rw [mergeStores_contacts_map]
      exact List.mem_map_of_mem _ hTmem
    rw [matchedPath_both] at hmp
    simp only at hmp
    split at hmp
    · rename_i hcond
      obtain ⟨sec, s2, hcr, hbr, rfl⟩ := finishCreate_ok hmp
      obtain ⟨hsec, hs2⟩ := createContact_ok hcr
      have hsecid : sec.id = s.nextId := by rw [hsec, mergeStores_nextId]
      have hr1 : r1.primaryContactId = T.id := buildResponse_primaryContactId hbr
      have hnodup2 : NodupIds s1 := by
        rw [NodupIds, hs2, List.map_append, hmergedids, List.nodup_append]
        refine ⟨hw.nodup, List.nodup_singleton _, ?_⟩
        intro a ha hb
        obtain ⟨d, hd, rfl⟩ := List.mem_map.mp ha
        simp only [List.map_cons, List.map_nil, List.mem_singleton] at hb
        have hfr := hw.fresh d hd
        rw [hb, hsecid] at hfr
        omega
      have hT'mem : updOne (O.map Contact.id) T.id s.now (s.now + 1) T ∈ s1.contacts := by
        rw [hs2]
        exact List.mem_append_left _ hT'mem0
      have hT'live : (updOne (O.map Contact.id) T.id s.now (s.now + 1) T).deletedAt =
          none := by
        obtain ⟨prim, hprimmem, hprimid⟩ := buildResponse_mem hbr
        rcases List.mem_append.mp hprimmem with hpc | hpc
        · obtain ⟨hpmem, hplive, _⟩ := mem_fetchCluster.mp hpc
          have := merged_row_with_Tid hw hTmem hpmem hprimid
          rw [← this]
          exact hplive
        · exfalso
          rw [List.mem_singleton] at hpc
          subst hpc
          rw [hsecid] at hprimid
          omega
      have hall : ∀ m ∈ findMatches s1 (some e) (some p),
          candidatePrimaryId m = T.id := by
        intro m hm
        obtain ⟨hms, hmlive, hmmatch⟩ := mem_findMatches.mp hm
        rw [hs2, mergeStores_contacts_map] at hms
        rcases List.mem_append.mp hms with hmem | hmem
        · obtain ⟨m0, hm0, rfl⟩ := List.mem_map.mp hmem
          rw [updOne_deletedAt] at hmlive
          rw [matchesEither_updOne] at hmmatch
          exact call2_cand_T hw hsort (mem_findMatches.mpr ⟨hm0, hmlive, hmmatch⟩)
        · rw [List.mem_singleton] at hmem
          subst hmem
          exact candidatePrimaryId_secondary (by rw [hsec]) (by rw [hsec]) hT0
      have hEwit : ∃ cE, cE ∈ s1.contacts ∧ cE.deletedAt = none ∧
          cE.email = some e ∧ (cE.id = T.id ∨ cE.linkedId = some T.id) := by
        rcases hEb : (fetchCluster (mergeStores s T.id (O.map Contact.id))
            (T.id :: O.map Contact.id)).any (fun c => c.email == some e) with _ | _
        · refine ⟨sec, ?_, by rw [hsec], ?_, Or.inr (by rw [hsec])⟩
          · rw [hs2]
            exact List.mem_append_right _ (List.mem_singleton.mpr rfl)
          · rw [hsec]
            simp only [hEb, Bool.not_false, if_pos]
        · obtain ⟨cE, hcEm, hcEl, hcEe, hcEr⟩ := cluster_any_witness hEb
          exact ⟨cE, by rw [hs2]; exact List.mem_append_left _ hcEm, hcEl, hcEe, hcEr⟩
      have hPwit : ∃ cP, cP ∈ s1.contacts ∧ cP.deletedAt = none ∧
          cP.phoneNumber = some p ∧ (cP.id = T.id ∨ cP.linkedId = some T.id) := by
        rcases hPb : (fetchCluster (mergeStores s T.id (O.map Contact.id))
            (T.id :: O.map Contact.id)).any (fun c => c.phoneNumber == some p) with _ | _
        · refine ⟨sec, ?_, by rw [hsec], ?_, Or.inr (by rw [hsec])⟩
          · rw [hs2]
            exact List.mem_append_right _ (List.mem_singleton.mpr rfl)
          · rw [hsec]
            simp only [hPb, Bool.not_false, if_pos]
        · obtain ⟨cP, hcPm, hcPl, hcPp, hcPr⟩ := cluster_any_witness hPb
          exact ⟨cP, by rw [hs2]; exact List.mem_append_left _ hcPm, hcPl, hcPp, hcPr⟩
      obtain ⟨r2, htx2, hpid2⟩ := txBody_second_eval hnodup2 hT'mem (updOne_id _ _ _ _ _)
        hT'live hall hEwit hPwit
      exact ⟨r2, htx2, by rw [hpid2, hr1]⟩
    · rename_i hcond
      rw [Bool.or_eq_true, not_or, Bool.not_eq_true', Bool.not_eq_true'] at hcond
      simp only [Bool.not_eq_false] at hcond
      obtain ⟨hbr, rfl⟩ := finishNoCreate_ok hmp
      have hr1 : r1.primaryContactId = T.id := buildResponse_primaryContactId hbr
      have hnodup2 : NodupIds (mergeStores s T.id (O.map Contact.id)) := by
        rw [NodupIds, hmergedids]
        exact hw.nodup
      have hT'live : (updOne (O.map Contact.id) T.id s.now (s.now + 1) T).deletedAt =
          none := by
        obtain ⟨prim, hprimmem, hprimid⟩ := buildResponse_mem hbr
        obtain ⟨hpmem, hplive, _⟩ := mem_fetchCluster.mp hprimmem
        have := merged_row_with_Tid hw hTmem hpmem hprimid
        rw [← this]
        exact hplive
      have hall : ∀ m ∈ findMatches (mergeStores s T.id (O.map Contact.id))
          (some e) (some p), candidatePrimaryId m = T.id := by
        intro m hm
        obtain ⟨hms, hmlive, hmmatch⟩ := mem_findMatches.mp hm
        rw [mergeStores_contacts_map] at hms
        obtain ⟨m0, hm0, rfl⟩ := List.mem_map.mp hms
        rw [updOne_deletedAt] at hmlive
        rw [matchesEither_updOne] at hmmatch
        exact call2_cand_T hw hsort (mem_findMatches.mpr ⟨hm0, hmlive, hmmatch⟩)
      obtain ⟨cE, hcEm, hcEl, hcEe, hcEr⟩ := cluster_any_witness hcond.1
      obtain ⟨cP, hcPm, hcPl, hcPp, hcPr⟩ := cluster_any_witness hcond.2
      obtain ⟨r2, htx2, hpid2⟩ := txBody_second_eval hnodup2 hT'mem0 (updOne_id _ _ _ _ _)
        hT'live hall ⟨cE, hcEm, hcEl, hcEe, hcEr⟩ ⟨cP, hcPm, hcPl, hcPp, hcPr⟩
      exact ⟨r2, htx2, by rw [hpid2, hr1]⟩

/-- C3 counterexample: the claim quantifies over every (email, phone) pair,
but for an email-only pair the second identical call does create a new
secondary record (the forced single-identifier touchpoint), so the claim
as stated is false.  The primary id is nevertheless stable. -/
theorem c3_idempotence_counterexample :
    processContact (⟨[], 1, 0⟩ : Store) (some "a@b.c") none 3 =
      .ok (⟨1, ["a@b.c"], [], []⟩,
        ⟨[⟨1, some "a@b.c", none, none, .primary, 0, 0, none⟩], 2, 1⟩) ∧
    processContact (⟨[⟨1, some "a@b.c", none, none, .primary, 0, 0, none⟩], 2, 1⟩ : Store)
        (some "a@b.c") none 3 =
      .ok (⟨1, ["a@b.c"], [], [2]⟩,
        ⟨[⟨1, some "a@b.c", none, none, .primary, 0, 0, none⟩,
          ⟨2, some "a@b.c", none, some 1, .secondary, 1, 1, none⟩], 3, 2⟩) ∧
    (⟨[⟨1, some "a@b.c", none, none, .primary, 0, 0, none⟩,
        ⟨2, some "a@b.c", none, some 1, .secondary, 1, 1, none⟩], 3, 2⟩ : Store).contacts.length
      = (⟨[⟨1, some "a@b.c", none, none, .primary, 0, 0, none⟩], 2, 1⟩ :
          Store).contacts.length + 1 := by
  refine ⟨by decide, by decide, by decide⟩

/-- C3 (amended): submitting an identical pair carrying **both** identifiers
twice in sequence against a well-formed store yields the same
`primaryContactId` on both calls, and the second call creates no new
record. -/
theorem c3_both_fields_idempotent {s : Store} (hw : WellFormed s)
    {rE rP : Option String} {e p : String}
    (hne : normalizeEmail (jsOfOpt rE) = some e)
    (hnp : normalizePhone (jsOfOpt rP) = some p)
    {n1 n2 : Nat} {r1 r2 : ContactResponse} {s1 s2 : Store}
    (h1 : processContact s rE rP n1 = .ok (r1, s1))
    (h2 : processContact s1 rE rP n2 = .ok (r2, s2)) :
    r1.primaryContactId = r2.primaryContactId ∧
      s2.contacts.length = s1.contacts.length := by
  have hrun : ∀ (t : Store) (m : Nat) (rv : ContactResponse) (tv : Store),
      txBody t (some e) (some p) = .ok (rv, tv) →
      processContact t rE rP m = .ok (rv, tv) := by
    intro t m rv tv htx
    cases m <;>
      simp only [processContact, hne, hnp, Option.isNone_some, Bool.and_self,
        Bool.false_eq_true, if_false, htx]
  rcases processContact_ok_cases h1 with htx1 | ⟨rfl, hrec1⟩
  · rw [hne, hnp] at htx1
    obtain ⟨r2v, htx2, hpid⟩ := second_call_tx hw htx1
    have h2v := hrun _ n2 r2v s1 htx2
    have hinj := h2v.symm.trans h2
    simp only [Except.ok.injEq, Prod.mk.injEq] at hinj
    rw [← hinj.1, ← hinj.2, hpid]
    exact ⟨rfl, rfl⟩
  · rw [hne, hnp] at hrec1
    rcases processContact_ok_cases h2 with htx2 | ⟨rfl, hrec2⟩
    · rw [hne, hnp] at htx2
      have h1v := hrun _ n1 r2 s2 htx2
      have hinj := h1v.symm.trans h1
      simp only [Except.ok.injEq, Prod.mk.injEq] at hinj
      rw [hinj.1, hinj.2]
      exact ⟨rfl, rfl⟩
    · rw [hne, hnp] at hrec2
      rw [hrec1] at hrec2
      rw [Option.some.inj hrec2]
      exact ⟨rfl, rfl⟩

/-- Witness for the amended C3: a both-identifier pair submitted twice
against the empty store keeps the primary id and the store size. -/
theorem c3_both_fields_idempotent_witness :
    (⟨1, ["a@x.com"], ["111"], []⟩ : ContactResponse).primaryContactId =
        (⟨1, ["a@x.com"], ["111"], []⟩ : ContactResponse).primaryContactId ∧
      (⟨[⟨1, some "a@x.com", some "111", none, .primary, 0, 0, none⟩], 2, 1⟩ :
          Store).contacts.length =
        (⟨[⟨1, some "a@x.com", some "111", none, .primary, 0, 0, none⟩], 2, 1⟩ :
          Store).contacts.length :=
  c3_both_fields_idempotent
    ⟨by decide, by decide, by decide, by decide, by decide⟩
    (show normalizeEmail (jsOfOpt (some "a@x.com")) = some "a@x.com" by decide)
    (show normalizePhone (jsOfOpt (some "111")) = some "111" by decide)
    (show processContact (⟨[], 1, 0⟩ : Store) (some "a@x.com") (some "111") 3 =
      .ok (⟨1, ["a@x.com"], ["111"], []⟩,
        ⟨[⟨1, some "a@x.com", some "111", none, .primary, 0, 0, none⟩], 2, 1⟩) by decide)
    (show processContact
        (⟨[⟨1, some "a@x.com", some "111", none, .primary, 0, 0, none⟩], 2, 1⟩ : Store)
        (some "a@x.com") (some "111") 3 =
      .ok (⟨1, ["a@x.com"], ["111"], []⟩,
        ⟨[⟨1, some "a@x.com", some "111", none, .primary, 0, 0, none⟩], 2, 1⟩) by decide)

/-! ## Claim C6: the conflict recovery query -/

/-- The recovery behaviour described by the specification for claim C6,
written from the spec's words for comparison with `conflictRecover`: match
"in priority order" — the full pair first, then the email alone, then the
phone alone — taking the oldest match within the winning priority class,
then resolve its true primary and return that cluster. -/
def specPriorityRecover (s : Store) (email phone : Option String) :
    Option ContactResponse :=
  let live := s.contacts.filter (fun c => c.deletedAt.isNone)
  let pairMatches :=
    if email.isSome && phone.isSome then
      live.filter (fun c => c.email == email && c.phoneNumber == phone)
    else []
  let emailMatches :=
    if email.isSome then live.filter (fun c => c.email == email) else []
  let phoneMatches :=
    if phone.isSome then live.filter (fun c => c.phoneNumber == phone) else []
  let picked :=
    match orderByCreatedAt pairMatches with
    | ex :: _ => some ex
    | [] =>
      match orderByCreatedAt emailMatches with
      | ex :: _ => some ex
      | [] => (orderByCreatedAt phoneMatches).head?
  match picked with
  | none => none
  | some ex =>
    let truePrimaryId? : Option Nat :=
      match ex.linkPrecedence with
      | .primary => some ex.id
      | .secondary => ex.linkedId
    match truePrimaryId? with
    | none => none
    | some tpid =>
      buildResponse tpid
        (s.contacts.filter (fun c =>
          c.deletedAt.isNone && (c.id == tpid || c.linkedId == some tpid)))

/-- An older primary sharing the email with `fixB6` but not the phone. -/
def fixA6 : Contact := ⟨1, some "e@x.com", some "999", none, .primary, 10, 10, none⟩

/-- A newer primary holding the exact requested pair. -/
def fixB6 : Contact := ⟨2, some "e@x.com", some "123", none, .primary, 20, 20, none⟩

/-- Store separating the oldest either-match from the oldest pair-match. -/
def fixS6 : Store := ⟨[fixA6, fixB6], 3, 30⟩

/-- C6 counterexample: the recovery query has no pair-first priority.  For
the request `(e@x.com, 123)` the claim's priority rule would pick the
pair-matching `fixB6` (primary id 2), but the code picks the overall oldest
either-match `fixA6` (primary id 1). -/
theorem c6_priority_counterexample :
    (conflictRecover fixS6 (some "e@x.com") (some "123")).map
        ContactResponse.primaryContactId = some 1 ∧
      (specPriorityRecover fixS6 (some "e@x.com") (some "123")).map
        ContactResponse.primaryContactId = some 2 ∧
      conflictRecover fixS6 (some "e@x.com") (some "123") ≠
        specPriorityRecover fixS6 (some "e@x.com") (some "123") :=
  ⟨by decide, by decide, by decide⟩

theorem priority_or_collapse (a b x y : Bool) :
    ((((a && b) && x) && y) || (a && x) || (b && y)) = ((a && x) || (b && y)) := by
  revert a b x y
  decide

/-- The flat `OR` of the recovery query collapses to a plain
either-identifier match: the pair disjunct adds nothing. -/
theorem recoverWhere_eq_matchesEither (e p : Option String) (c : Contact) :
    recoverWhere e p c = matchesEither e p c := by
  rw [recoverWhere, matchesEither]
  exact priority_or_collapse e.isSome p.isSome (c.email == e) (c.phoneNumber == p)

/-- C6 (amended): on a uniqueness violation the code re-queries for the
single oldest non-deleted row matching the email or the phone (no priority
between the pair, the email and the phone conditions), resolves its true
primary (itself if primary, else its `linkedId`), and returns that cluster;
the losing side leaves the store unchanged. -/
theorem c6_conflict_recovery :
    (∀ (s : Store) (e p : Option String) (r : ContactResponse),
      conflictRecover s e p = some r →
      ∃ ex, ex ∈ s.contacts ∧ ex.deletedAt = none ∧ matchesEither e p ex = true ∧
        (∀ d ∈ s.contacts, d.deletedAt = none → matchesEither e p d = true →
          byCreatedAt ex d = true) ∧
        ((ex.linkPrecedence = .primary ∧ r.primaryContactId = ex.id) ∨
          (ex.linkPrecedence = .secondary ∧ ex.linkedId = some r.primaryContactId))) ∧
    (∀ (s : Store) (rE rP : Option String) (n : Nat) (r : ContactResponse) (s' : Store),
      processContact s rE rP n = .ok (r, s') →
      txBody s (normalizeEmail (jsOfOpt rE)) (normalizePhone (jsOfOpt rP)) =
        .error .uniqueViolation →
      s' = s) := by
  constructor
  · intro s e p r h
    rw [conflictRecover] at h
    split at h
    · cases h
    · rename_i ex rest hsorteq
      have hexmem : ex ∈ s.contacts.filter
          (fun c => c.deletedAt.isNone && recoverWhere e p c) := by
        have : ex ∈ ex :: rest := List.mem_cons_self _ _
        rw [← hsorteq] at this
        exact mem_orderByCreatedAt.mp this
      rw [List.mem_filter] at hexmem
      obtain ⟨hexs, hexprops⟩ := hexmem
      rw [Bool.and_eq_true, Option.isNone_iff_eq_none] at hexprops
      refine ⟨ex, hexs, hexprops.1, ?_, ?_, ?_⟩
      · rw [← recoverWhere_eq_matchesEither]
        exact hexprops.2
      · intro d hd hdlive hdmatch
        refine orderByCreatedAt_head_min hsorteq d ?_
        rw [List.mem_filter]
        refine ⟨hd, ?_⟩
        rw [Bool.and_eq_true, Option.isNone_iff_eq_none,
          recoverWhere_eq_matchesEither]
        exact ⟨hdlive, hdmatch⟩
      · split at h
        · rename_i hprim
          simp only at h
          left
          exact ⟨hprim, buildResponse_primaryContactId h⟩
        · rename_i hsec
          right
          refine ⟨hsec, ?_⟩
          cases hl : ex.linkedId with
          | none =>
            rw [hl] at h
            simp only at h
            cases h
          | some j =>
            rw [hl] at h
            simp only at h
            rw [buildResponse_primaryContactId h]
  · intro s rE rP n r s' hok htx
    rcases processContact_ok_cases hok with htx' | ⟨heq, _⟩
    · rw [htx] at htx'
      cases htx'
    · exact heq

/-- Witness for the amended C6 at the `fixS6` store. -/
theorem c6_conflict_recovery_witness :
    ∃ ex, ex ∈ fixS6.contacts ∧ ex.deletedAt = none ∧
      matchesEither (some "e@x.com") (some "123") ex = true ∧
      (∀ d ∈ fixS6.contacts, d.deletedAt = none →
        matchesEither (some "e@x.com") (some "123") d = true →
        byCreatedAt ex d = true) ∧
      ((ex.linkPrecedence = .primary ∧
          (⟨1, ["e@x.com"], ["999"], []⟩ : ContactResponse).primaryContactId = ex.id) ∨
        (ex.linkPrecedence = .secondary ∧
          ex.linkedId =
            some (⟨1, ["e@x.com"], ["999"], []⟩ : ContactResponse).primaryContactId)) :=
  c6_conflict_recovery.1 fixS6 (some "e@x.com") (some "123")
    ⟨1, ["e@x.com"], ["999"], []⟩
    (show conflictRecover fixS6 (some "e@x.com") (some "123") =
      some ⟨1, ["e@x.com"], ["999"], []⟩ by decide)

/-! ## Claim C7: the bounded retry envelope -/

/-- Outcomes a transaction attempt can surface to the catch handler: the
`P2002` uniqueness conflict, or any other persistence failure identified by
a code. -/
inductive StoreErr where
  | uniq
  | other (code : Nat)
deriving DecidableEq, Repr

/-- Errors the retry envelope reports: the persistence-conflict error
(`DatabaseError`, a 503) or the unchanged propagated failure. -/
inductive EnvErr where
  | serviceConflict
  | passthrough (code : Nat)
deriving DecidableEq, Repr

/-- The conflict/retry envelope of `processContact` (lines 165–202),
abstracted over the attempt outcomes: `attempt n` is the result of the
transaction run with remaining budget `n`, and `recover n` the result of
the read-and-resolve fallback there.  On `uniq` with budget left it
recovers or retries with the budget decremented; on exhausted budget it
fails with the persistence-conflict error; any other failure propagates
unchanged. -/
def retryLoop (attempt : Nat → Except StoreErr ContactResponse)
    (recover : Nat → Option ContactResponse) : Nat → Except EnvErr ContactResponse :=
  fun n =>
    match attempt n with
    | .ok r => .ok r
    | .error .uniq =>
      match n with
      | Nat.succ k =>
        match recover n with
        | some r => .ok r
        | none => retryLoop attempt recover k
      | 0 => .error .serviceConflict
    | .error (.other c) => .error (.passthrough c)

/-- C7: the envelope retries at most the fixed budget (its result depends
only on the attempts and recoveries at budgets `n` down to `0`, so a
default budget of 3 means at most 3 retries after the first attempt); if
uniqueness conflicts persist across the whole budget with no recovery it
fails with the persistence-conflict error, which is distinct from the
input error; and a non-uniqueness failure propagates unchanged with no
retry.  The deterministic `processContact` shows the same exhaustion
behaviour. -/
theorem c7_retry_envelope :
    (∀ (a a' : Nat → Except StoreErr ContactResponse)
        (rec rec' : Nat → Option ContactResponse) (n : Nat),
      (∀ k ≤ n, a k = a' k) → (∀ k ≤ n, rec k = rec' k) →
      retryLoop a rec n = retryLoop a' rec' n) ∧
    (∀ (a : Nat → Except StoreErr ContactResponse)
        (rec : Nat → Option ContactResponse) (n : Nat),
      (∀ k ≤ n, a k = .error .uniq) → (∀ k ≤ n, rec k = none) →
      retryLoop a rec n = .error .serviceConflict) ∧
    (∀ (a : Nat → Except StoreErr ContactResponse)
        (rec : Nat → Option ContactResponse) (n c : Nat),
      a n = .error (.other c) → retryLoop a rec n = .error (.passthrough c)) ∧
    (ProcErr.dbConflict ≠ ProcErr.inputError) ∧
    (∀ (s : Store) (rE rP : Option String),
      (normalizeEmail (jsOfOpt rE)).isSome ∨ (normalizePhone (jsOfOpt rP)).isSome →
      txBody s (normalizeEmail (jsOfOpt rE)) (normalizePhone (jsOfOpt rP)) =
        .error .uniqueViolation →
      conflictRecover s (normalizeEmail (jsOfOpt rE)) (normalizePhone (jsOfOpt rP)) =
        none →
      ∀ n, processContact s rE rP n = .error .dbConflict) := by
  have hguard : ∀ (rE rP : Option String),
      (normalizeEmail (jsOfOpt rE)).isSome ∨ (normalizePhone (jsOfOpt rP)).isSome →
      ((normalizeEmail (jsOfOpt rE)).isNone &&
        (normalizePhone (jsOfOpt rP)).isNone) = false := by
    intro rE rP hinput
    rcases hinput with h | h
    · rw [Option.isSome_iff_exists] at h
      obtain ⟨v, hv⟩ := h
      simp [hv]
    · rw [Option.isSome_iff_exists] at h
      obtain ⟨v, hv⟩ := h
      simp [hv]
  refine ⟨?_, ?_, ?_, by simp, ?_⟩
  · intro a a' rec rec' n
    induction n with
    | zero =>
      intro ha hrec
      simp only [retryLoop, ha 0 (Nat.le_refl 0)]
    | succ k ih =>
      intro ha hrec
      simp only [retryLoop, ha (k + 1) (Nat.le_refl _), hrec (k + 1) (Nat.le_refl _)]
      have hrest := ih (fun j hj => ha j (Nat.le_succ_of_le hj))
        (fun j hj => hrec j (Nat.le_succ_of_le hj))
      cases a' (k + 1) with
      | ok r => rfl
      | error er =>
        cases er with
        | uniq =>
          cases rec' (k + 1) with
          | some r => rfl
          | none => exact hrest
        | other c => rfl
  · intro a rec n
    induction n with
    | zero =>
      intro ha _
      simp only [retryLoop, ha 0 (Nat.le_refl 0)]
    | succ k ih =>
      intro ha hrec
      simp only [retryLoop, ha (k + 1) (Nat.le_refl _), hrec (k + 1) (Nat.le_refl _)]
      exact ih (fun j hj => ha j (Nat.le_succ_of_le hj))
        (fun j hj => hrec j (Nat.le_succ_of_le hj))
  · intro a rec n c ha
    cases n <;> simp only [retryLoop, ha]
  · intro s rE rP hinput htx hrec n
    induction n with
    | zero =>
      simp only [processContact, htx]
      rw [hguard rE rP hinput]
      simp only [Bool.false_eq_true, if_false]
    | succ k ih =>
      simp only [processContact, htx, hrec]
      rw [hguard rE rP hinput]
      simp only [Bool.false_eq_true, if_false]
      exact ih

/-- Witness for C7: three retries of persistent conflicts with no
recoverable row end in the persistence-conflict error. -/
theorem c7_retry_envelope_witness :
    retryLoop (fun _ => .error .uniq) (fun _ => none) 3 = .error .serviceConflict :=
  c7_retry_envelope.2.1 (fun _ => .error .uniq) (fun _ => none) 3
    (fun _ _ => rfl) (fun _ _ => rfl)

/-! ## Claim C8: soft-deleted rows -/

/-- A soft-deleted primary still referenced by a live secondary. -/
def fixD8 : Contact := ⟨1, none, none, none, .primary, 5, 5, some 7⟩

/-- A live primary, older than the deleted `fixD8`. -/
def fixA8 : Contact := ⟨2, some "e@x.com", none, none, .primary, 3, 3, none⟩

/-- A live secondary whose `linkedId` points at the soft-deleted `fixD8`. -/
def fixSec8 : Contact := ⟨3, none, some "777", some 1, .secondary, 6, 6, none⟩

/-- Store exhibiting a live secondary under a soft-deleted primary. -/
def fixS8 : Store := ⟨[fixD8, fixA8, fixSec8], 4, 10⟩

/-- C8 counterexample: the soft-deleted `fixD8` is fetched as a candidate
primary (the candidate fetch carries no `deletedAt` filter) and is then
modified by the demote update — it ends up secondary with `linkedId` set —
contradicting the claim that deleted records are never selected as
candidates nor modified by the merge updates. -/
theorem c8_soft_delete_counterexample :
    fixD8 ∈ fetchCandidates fixS8 (findMatches fixS8 (some "e@x.com") (some "777")) ∧
      fixD8.deletedAt ≠ none ∧
      processContact fixS8 (some "e@x.com") (some "777") 3 =
        .ok (⟨2, ["e@x.com"], ["777"], [3]⟩,
          ⟨[⟨1, none, none, some 2, .secondary, 5, 11, some 7⟩, fixA8,
            ⟨3, none, some "777", some 2, .secondary, 6, 10, none⟩], 4, 12⟩) ∧
      ∃ d ∈ (⟨[⟨1, none, none, some 2, .secondary, 5, 11, some 7⟩, fixA8,
          ⟨3, none, some "777", some 2, .secondary, 6, 10, none⟩], 4, 12⟩ :
            Store).contacts,
        d.deletedAt ≠ none ∧ d.linkPrecedence = .secondary ∧ d.linkedId = some 2 :=
  ⟨by decide, by decide, by decide, by decide⟩

/-- C8 (amended): the identifier matcher, the cluster fetch and the
conflict-recovery query do exclude soft-deleted rows, but the
candidate-primary fetch and the bulk re-parent/demote updates carry no
`deletedAt` filter, so a soft-deleted record referenced by a live
secondary's `linkedId` can be selected and modified by a merge. -/
theorem c8_soft_delete_scope :
    (∀ (s : Store) (e p : Option String) (c : Contact),
      c ∈ findMatches s e p → c.deletedAt = none) ∧
    (∀ (s : Store) (rootIds : List Nat) (c : Contact),
      c ∈ fetchCluster s rootIds → c.deletedAt = none) ∧
    (∀ (s : Store) (e p : Option String) (c : Contact),
      c ∈ s.contacts.filter (fun c => c.deletedAt.isNone && recoverWhere e p c) →
      c.deletedAt = none) ∧
    (∃ (s : Store) (rE rP : Option String) (n : Nat) (r : ContactResponse) (s' : Store),
      processContact s rE rP n = .ok (r, s') ∧
      ∃ d ∈ s'.contacts, d.deletedAt ≠ none ∧ d.linkPrecedence = .secondary) := by
  refine ⟨?_, ?_, ?_, ?_⟩
  · intro s e p c hc
    exact (mem_findMatches.mp hc).2.1
  · intro s rootIds c hc
    exact (mem_fetchCluster.mp hc).2.1
  · intro s e p c hc
    rw [List.mem_filter, Bool.and_eq_true, Option.isNone_iff_eq_none] at hc
    exact hc.2.1
  · exact ⟨fixS8, some "e@x.com", some "777", 3,
      ⟨2, ["e@x.com"], ["777"], [3]⟩,
      ⟨[⟨1, none, none, some 2, .secondary, 5, 11, some 7⟩, fixA8,
        ⟨3, none, some "777", some 2, .secondary, 6, 10, none⟩], 4, 12⟩,
      by decide, by decide⟩

/-- Witness for the amended C8: the matcher result at `fixS8` is live. -/
theorem c8_soft_delete_scope_witness : fixA8.deletedAt = none :=
  c8_soft_delete_scope.1 fixS8 (some "e@x.com") (some "777") fixA8 (by decide)

/-! ## Claim C9: the unmatched path -/

/-- A soft-deleted row still holding the exact pair in the unique index. -/
def fixD9 : Contact := ⟨1, some "x@y.com", some "123", none, .primary, 1, 1, some 2⟩

/-- Store whose only row is the soft-deleted pair holder. -/
def fixS9 : Store := ⟨[fixD9], 2, 5⟩

/-- C9 counterexample: no non-deleted record matches either identifier, yet
no new record is created and no singleton cluster is returned — the
table-wide unique index still holds the pair on a soft-deleted row, every
insert attempt raises the uniqueness conflict, the recovery query sees no
live match, and the call exhausts its budget with the persistence-conflict
error. -/
theorem c9_new_primary_counterexample :
    findMatches fixS9 (some "x@y.com") (some "123") = [] ∧
      processContact fixS9 (some "x@y.com") (some "123") 3 = .error .dbConflict :=
  ⟨by decide, by decide⟩

theorem normalizeEmail_ne_empty (v : JSVal) : normalizeEmail v ≠ some "" := by
  cases v with
  | vstr s =>
    rw [normalizeEmail]
    by_cases h : toLowerStr (trimStr s) = "" <;> simp [h]
  | vnum n => simp [normalizeEmail]
  | vnull => simp [normalizeEmail]
  | vundef => simp [normalizeEmail]

theorem normalizePhone_ne_empty (v : JSVal) : normalizePhone v ≠ some "" := by
  rw [normalizePhone]
  by_cases hn : v.isNullish <;> by_cases hd : stripNonDigits v.toStr = "" <;>
    simp [hn, hd]

/-- C9 (amended): when at least one identifier normalizes, no non-deleted
record matches either identifier, and additionally no record at all (even
soft-deleted) holds the identical non-null pair in the unique index,
`processContact` creates exactly one new primary with `linkedId` null
carrying the supplied values and returns it as a singleton cluster. -/
theorem c9_new_primary {s : Store} {rE rP : Option String} {e p : Option String}
    (hne : normalizeEmail (jsOfOpt rE) = e) (hnp : normalizePhone (jsOfOpt rP) = p)
    (hsome : e.isSome ∨ p.isSome)
    (hmatch : findMatches s e p = [])
    (hnoconf : (e.isSome && p.isSome &&
      s.contacts.any (fun c => c.email == e && c.phoneNumber == p)) = false) :
    ∀ n, processContact s rE rP n =
      .ok (⟨s.nextId, e.toList, p.toList, []⟩,
        ⟨s.contacts ++ [⟨s.nextId, e, p, none, .primary, s.now, s.now, none⟩],
          s.nextId + 1, s.now + 1⟩) := by
  have hguard : (e.isNone && p.isNone) = false := by
    rcases hsome with h | h
    · rw [Option.isSome_iff_exists] at h
      obtain ⟨v, hv⟩ := h
      simp [hv]
    · rw [Option.isSome_iff_exists] at h
      obtain ⟨v, hv⟩ := h
      simp [hv]
  have hcr : createContact s e p .primary none =
      .ok (⟨s.nextId, e, p, none, .primary, s.now, s.now, none⟩,
        ⟨s.contacts ++ [⟨s.nextId, e, p, none, .primary, s.now, s.now, none⟩],
          s.nextId + 1, s.now + 1⟩) := by
    rw [createContact, if_neg (by rw [hnoconf]; exact Bool.false_ne_true)]
  have hbr : buildResponse s.nextId
      [⟨s.nextId, e, p, none, .primary, s.now, s.now, none⟩] =
      some ⟨s.nextId, e.toList, p.toList, []⟩ := by
    rw [buildResponse]
    simp only [List.find?_cons, beq_self_eq_true, List.filter_cons, bne_self_eq_false,
      List.filter_nil]
    congr 1
    have hemail : e ≠ some "" := by
      rw [← hne]
      exact normalizeEmail_ne_empty _
    have hphone : p ≠ some "" := by
      rw [← hnp]
      exact normalizePhone_ne_empty _
    cases e with
    | none =>
      cases p with
      | none => rfl
      | some pv =>
        have hpv : pv ≠ "" := fun hc => hphone (by rw [hc])
        simp [jsSetDedup, hpv]
    | some ev =>
      have hev : ev ≠ "" := fun hc => hemail (by rw [hc])
      cases p with
      | none => simp [jsSetDedup, hev]
      | some pv =>
        have hpv : pv ≠ "" := fun hc => hphone (by rw [hc])
        simp [jsSetDedup, hev, hpv]
  have htx : txBody s e p =
      .ok (⟨s.nextId, e.toList, p.toList, []⟩,
        ⟨s.contacts ++ [⟨s.nextId, e, p, none, .primary, s.now, s.now, none⟩],
          s.nextId + 1, s.now + 1⟩) := by
    rw [txBody_empty hmatch, emptyPath, hcr]
    simp only
    rw [hbr]
  intro n
  cases n <;>
    · rw [processContact.eq_def]
      simp only [hne, hnp, htx]
      rw [hguard]
      simp only [Bool.false_eq_true, if_false]

/-- Witness for the amended C9: the spec's own example — the pair
`(lorraine@hillvalley.edu, 123456)` against the empty store yields a
singleton cluster anchored at the fresh primary. -/
theorem c9_new_primary_witness :
    processContact (⟨[], 1, 0⟩ : Store) (some "lorraine@hillvalley.edu")
        (some "123456") 3 =
      .ok (⟨1, ["lorraine@hillvalley.edu"], ["123456"], []⟩,
        ⟨[⟨1, some "lorraine@hillvalley.edu", some "123456", none, .primary, 0, 0,
          none⟩], 2, 1⟩) := by
  have h := c9_new_primary (s := ⟨[], 1, 0⟩)
    (show normalizeEmail (jsOfOpt (some "lorraine@hillvalley.edu")) =
      some "lorraine@hillvalley.edu" by decide)
    (show normalizePhone (jsOfOpt (some "123456")) = some "123456" by decide)
    (by decide) (by decide) (by decide) 3
  exact h

/-! ## Claim C10: dynamic typing of the normalizers -/

/-- C10: `normalizePhone` treats every non-nullish value — numbers included
— by converting it to a string and stripping the non-digits, so the number
`123456` normalizes to the string `"123456"`; `normalizeEmail` instead
returns absence for every non-string value. -/
theorem c10_normalization_dynamics :
    (∀ v : JSVal, v.isStr = false → normalizeEmail v = none) ∧
    (∀ v : JSVal, v.isNullish = false →
      normalizePhone v =
        (if stripNonDigits v.toStr = "" then none else some (stripNonDigits v.toStr))) ∧
    normalizePhone (.vnum 123456) = some "123456" := by
  refine ⟨?_, ?_, by decide⟩
  · intro v hv
    cases v with
    | vstr s => cases hv
    | vnum n => rfl
    | vnull => rfl
    | vundef => rfl
  · intro v hv
    rw [normalizePhone, hv]
    simp

/-- Witness for C10: a numeric value is not an email but is a phone. -/
theorem c10_normalization_dynamics_witness :
    normalizeEmail (.vnum 7) = none :=
  c10_normalization_dynamics.1 (.vnum 7) (by decide)

end IdentifySvc
